import Mathlib

/-!
# Agora access tokens (version 006): a shallow embedding

The development embeds `access_token.go`, `rtc_token_builder.go` and
`rtm_token_builder.go`.

* A Go `string` / `[]byte` is a list of bytes (`Bytes`), every byte a natural number.
* `uint16` / `uint32` values are natural numbers; conversions reduce modulo `2^16` / `2^32`.
* A `map[Privileges]uint32` is the list of its entries in iteration order (`GoMap`);
  Go leaves that order unspecified, so nothing below may depend on it.
* `time.Time` is observed only through `Unix()`, so a time is its Unix seconds (`Int`).
* The clock and the random source read by `NewAccessTokenStrUID` are explicit arguments.
* `BuildRTCTokenWithUID` passes a `uint32` where a `time.Time` is required and is rejected
  by the Go type checker; only the statements that compute its user string are embedded.
-/

namespace Agora

/-- Byte strings: Go `string` and `[]byte`. -/
abbrev Bytes := List Nat

/-- The bytes of an ASCII literal. -/
def ascii (s : String) : Bytes := s.data.map Char.toNat

/-- Errors surfaced by the codec. `EOF` and `unexpectedEOF` come from `binary.Read`
(through `io.ReadFull`), `corruptInput` from the base64 decoder. -/
inductive Err where
  | versionMismatch
  | corruptInput
  | EOF
  | unexpectedEOF
  deriving DecidableEq, Repr

/-- Outcome of a Go call that may also stop with a run-time fault (slice out of range). -/
inductive Outcome (α : Type) where
  | ok (a : α)
  | error (e : Err)
  | fault
  deriving DecidableEq, Repr

/-! ## Maps -/

/-- A Go map `map[Privileges]uint32`, as its entries in iteration order. -/
abbrev GoMap := List (Nat × Nat)

namespace GoMap

/-- Keys in iteration order (`for k := range m`). -/
def keys (m : GoMap) : List Nat := m.map Prod.fst

/-- The two-result lookup `v, ok := m[k]`. -/
def lookup? (m : GoMap) (k : Nat) : Option Nat :=
  match m with
  | [] => none
  | (k', v) :: rest => if k' = k then some v else lookup? rest k

/-- The one-result lookup `m[k]`: the zero value when the key is absent. -/
def get (m : GoMap) (k : Nat) : Nat := (lookup? m k).getD 0

/-- The assignment `m[k] = v`: overwrite an existing entry, otherwise add one. -/
def set (m : GoMap) (k v : Nat) : GoMap :=
  match m with
  | [] => [(k, v)]
  | (k', v') :: rest => if k' = k then (k, v) :: rest else (k', v') :: set rest k v

/-- Well-formed maps: keys are unique `uint16` values, values are `uint32`. -/
def WF (m : GoMap) : Prop :=
  (keys m).Nodup ∧ ∀ p ∈ m, p.1 < 65536 ∧ p.2 < 4294967296

instance (m : GoMap) : Decidable (WF m) := by
  unfold WF; exact inferInstance

end GoMap

/-! ## Privileges and roles -/

def PrivilegeJoinChannel : Nat := 1
def PrivilegePublishAudioStream : Nat := 2
def PrivilegePublishVideoStream : Nat := 3
def PrivilegePublishDataStream : Nat := 4
def PrivilegeAdministrateChannel : Nat := 101
def PrivilegeLoginRtm : Nat := 1000

def RoleAttendee : Nat := 0
def RolePublisher : Nat := 1
def RoleAdmin : Nat := 101

def VersionLength : Nat := 3
def AppIdLength : Nat := 32
def dk6version : Bytes := ascii "006"

/-! ## Binary primitives -/

/-- `binary.LittleEndian.PutUint16`. -/
def le16 (n : Nat) : Bytes := [n % 256, n / 256 % 256]

/-- `binary.LittleEndian.PutUint32`. -/
def le32 (n : Nat) : Bytes := [n % 256, n / 256 % 256, n / 65536 % 256, n / 16777216 % 256]

/-- The writer is a `bytes.Buffer`, whose `Write` appends and never fails. -/
def packUint16 (w : Bytes) (n : Nat) : Except Err Bytes := .ok (w ++ le16 n)

def packUint32 (w : Bytes) (n : Nat) : Except Err Bytes := .ok (w ++ le32 n)

/-- The length prefix is `uint16(len(s))`; all of `s` is written. -/
def packString (w : Bytes) (s : Bytes) : Except Err Bytes := do
  let w ← packUint16 w (s.length % 65536)
  .ok (w ++ s)

/-- Writes the records of `packMapUint32` for the given (already sorted) keys. -/
def packEntries (w : Bytes) (extra : GoMap) : List Nat → Except Err Bytes
  | [] => .ok w
  | k :: ks => do
    let v := extra.get k
    let w ← packUint16 w (k % 65536)
    let w ← packUint32 w v
    packEntries w extra ks

/-- The count is `uint16(len(extra))`; the keys are collected in iteration order,
sorted ascending with a stable sort, and written with their values. -/
def packMapUint32 (w : Bytes) (extra : GoMap) : Except Err Bytes := do
  let w ← packUint16 w (extra.length % 65536)
  let keys := extra.keys
  let keys := keys.insertionSort (· ≤ ·)
  packEntries w extra keys

/-- `binary.Read` of a `uint16` from a `bytes.Reader` holding `r`: the value and the
unread rest. `io.ReadFull` reports `EOF` when nothing is left and `ErrUnexpectedEOF`
when fewer than two bytes are. -/
def unPackUint16 (r : Bytes) : Except Err (Nat × Bytes) :=
  match r with
  | b0 :: b1 :: rest => .ok (b0 + 256 * b1, rest)
  | [] => .error .EOF
  | _ => .error .unexpectedEOF

def unPackUint32 (r : Bytes) : Except Err (Nat × Bytes) :=
  match r with
  | b0 :: b1 :: b2 :: b3 :: rest => .ok (b0 + 256 * b1 + 65536 * b2 + 16777216 * b3, rest)
  | [] => .error .EOF
  | _ => .error .unexpectedEOF

/-- `buf := make([]byte, n); r.Read(buf)`: the result of `Read` is dropped, so a short
read leaves the tail of the zero-initialised buffer in place; the returned error is the
one of `unPackUint16`, which is nil at that point. -/
def unPackString (r : Bytes) : Except Err (Bytes × Bytes) := do
  let (n, r) ← unPackUint16 r
  let buf := r.take n ++ List.replicate (n - r.length) 0
  .ok (buf, r.drop n)

def unPackContent (buff : Bytes) : Except Err (Bytes × Nat × Nat × Bytes) := do
  let (sig, r) ← unPackString buff
  let (crcChannelName, r) ← unPackUint32 r
  let (crcUid, r) ← unPackUint32 r
  let (m, _) ← unPackString r
  .ok (sig, crcChannelName, crcUid, m)

/-- The loop `for i := uint16(0); i < length; i++` of `unPackMessages`, with `n` the
iterations still to run. -/
def unPackRecords : Nat → Bytes → GoMap → Except Err GoMap
  | 0, _, msgMap => .ok msgMap
  | n + 1, r, msgMap => do
    let (key, r) ← unPackUint16 r
    let (value, r) ← unPackUint32 r
    unPackRecords n r (msgMap.set key value)

def unPackMessages (msgStr : Bytes) : Except Err (Nat × Nat × GoMap) := do
  let (salt, r) ← unPackUint32 msgStr
  let (ts, r) ← unPackUint32 r
  let (length, r) ← unPackUint16 r
  let msgMap ← unPackRecords length r []
  .ok (salt, ts, msgMap)

/-! ## Standard-library functions used by the codec -/

/-- `hash/crc32`: one entry of the table built by `crc32.MakeTable(0xedb88320)`. -/
def crcTableEntry (i : Nat) : Nat :=
  Nat.iterate (fun crc => if crc % 2 = 1 then (crc / 2) ^^^ 0xedb88320 else crc / 2) 8 i

/-- `crc32.Checksum(data, table)`: complement, fold the bytes through the table,
complement again; the result is a `uint32`. -/
def crc32 (data : Bytes) : Nat :=
  let crc := data.foldl
    (fun crc v => crcTableEntry ((crc % 256) ^^^ (v % 256)) ^^^ (crc / 256)) 0xffffffff
  (crc ^^^ 0xffffffff) % 4294967296

/-- Rotate a 32-bit word right. -/
def rotr (x n : Nat) : Nat := ((x >>> n) ||| (x <<< (32 - n))) % 4294967296

/-- Big-endian bytes of a 32-bit word. -/
def be32 (n : Nat) : Bytes := [n / 16777216 % 256, n / 65536 % 256, n / 256 % 256, n % 256]

/-- Big-endian 32-bit words of a block. -/
def beWords : Bytes → List Nat
  | b0 :: b1 :: b2 :: b3 :: rest => (16777216 * b0 + 65536 * b1 + 256 * b2 + b3) :: beWords rest
  | _ => []

def sha256K : List Nat :=
  [0x428a2f98, 0x71374491, 0xb5c0fbcf, 0xe9b5dba5, 0x3956c25b, 0x59f111f1, 0x923f82a4, 0xab1c5ed5,
   0xd807aa98, 0x12835b01, 0x243185be, 0x550c7dc3, 0x72be5d74, 0x80deb1fe, 0x9bdc06a7, 0xc19bf174,
   0xe49b69c1, 0xefbe4786, 0x0fc19dc6, 0x240ca1cc, 0x2de92c6f, 0x4a7484aa, 0x5cb0a9dc, 0x76f988da,
   0x983e5152, 0xa831c66d, 0xb00327c8, 0xbf597fc7, 0xc6e00bf3, 0xd5a79147, 0x06ca6351, 0x14292967,
   0x27b70a85, 0x2e1b2138, 0x4d2c6dfc, 0x53380d13, 0x650a7354, 0x766a0abb, 0x81c2c92e, 0x92722c85,
   0xa2bfe8a1, 0xa81a664b, 0xc24b8b70, 0xc76c51a3, 0xd192e819, 0xd6990624, 0xf40e3585, 0x106aa070,
   0x19a4c116, 0x1e376c08, 0x2748774c, 0x34b0bcb5, 0x391c0cb3, 0x4ed8aa4a, 0x5b9cca4f, 0x682e6ff3,
   0x748f82ee, 0x78a5636f, 0x84c87814, 0x8cc70208, 0x90befffa, 0xa4506ceb, 0xbef9a3f7, 0xc67178f2]

/-- The eight working words of SHA-256. -/
structure ShaState where
  a : Nat
  b : Nat
  c : Nat
  d : Nat
  e : Nat
  f : Nat
  g : Nat
  h : Nat

def sha256Init : ShaState :=
  ⟨0x6a09e667, 0xbb67ae85, 0x3c6ef372, 0xa54ff53a, 0x510e527f, 0x9b05688c, 0x1f83d9ab, 0x5be0cd19⟩

/-- Extends the 16 words of a block to the 64 words of the message schedule. -/
def shaSchedule (block : List Nat) : List Nat :=
  (List.range 48).foldl (fun w _ =>
    let n := w.length
    let w2 := w.getD (n - 2) 0
    let w15 := w.getD (n - 15) 0
    let s0 := rotr w15 7 ^^^ rotr w15 18 ^^^ (w15 >>> 3)
    let s1 := rotr w2 17 ^^^ rotr w2 19 ^^^ (w2 >>> 10)
    w ++ [(s1 + w.getD (n - 7) 0 + s0 + w.getD (n - 16) 0) % 4294967296]) block

def shaRound (s : ShaState) (kw : Nat × Nat) : ShaState :=
  let s1 := rotr s.e 6 ^^^ rotr s.e 11 ^^^ rotr s.e 25
  let ch := (s.e &&& s.f) ^^^ ((s.e ^^^ 0xffffffff) &&& s.g)
  let t1 := s.h + s1 + ch + kw.1 + kw.2
  let s0 := rotr s.a 2 ^^^ rotr s.a 13 ^^^ rotr s.a 22
  let maj := (s.a &&& s.b) ^^^ (s.a &&& s.c) ^^^ (s.b &&& s.c)
  let t2 := s0 + maj
  ⟨(t1 + t2) % 4294967296, s.a, s.b, s.c, (s.d + t1) % 4294967296, s.e, s.f, s.g⟩

def shaBlock (h : ShaState) (block : Bytes) : ShaState :=
  let s := (sha256K.zip (shaSchedule (beWords block))).foldl shaRound h
  ⟨(h.a + s.a) % 4294967296, (h.b + s.b) % 4294967296, (h.c + s.c) % 4294967296,
   (h.d + s.d) % 4294967296, (h.e + s.e) % 4294967296, (h.f + s.f) % 4294967296,
   (h.g + s.g) % 4294967296, (h.h + s.h) % 4294967296⟩

/-- Message padding: `0x80`, zeros up to 56 modulo 64, the bit length on 8 bytes. -/
def shaPad (msg : Bytes) : Bytes :=
  let bits := 8 * msg.length
  msg ++ [0x80] ++ List.replicate ((119 - msg.length % 64) % 64) 0
    ++ be32 (bits / 4294967296) ++ be32 bits

/-- Hashes the 64-byte blocks of `bs`; `fuel` bounds the number of blocks. -/
def shaBlocks : Nat → ShaState → Bytes → ShaState
  | 0, h, _ => h
  | fuel + 1, h, bs => if bs.length < 64 then h else shaBlocks fuel (shaBlock h (bs.take 64)) (bs.drop 64)

/-- `sha256.Sum256`. -/
def sha256 (msg : Bytes) : Bytes :=
  let p := shaPad msg
  let s := shaBlocks p.length sha256Init p
  be32 s.a ++ be32 s.b ++ be32 s.c ++ be32 s.d ++ be32 s.e ++ be32 s.f ++ be32 s.g ++ be32 s.h

/-- `hmac.New(sha256.New, key)` followed by `Write(msg)` and `Sum(nil)`. -/
def hmacSha256 (key msg : Bytes) : Bytes :=
  let key := if key.length > 64 then sha256 key else key
  let key := key ++ List.replicate (64 - key.length) 0
  let ipad := key.map (· ^^^ 0x36)
  let opad := key.map (· ^^^ 0x5c)
  sha256 (opad ++ sha256 (ipad ++ msg))

/-- The alphabet of `base64.StdEncoding`. -/
def b64Alphabet : Bytes :=
  ascii "ABCDEFGHIJKLMNOPQRSTUVWXYZabcdefghijklmnopqrstuvwxyz0123456789+/"

/-- The character of a 6-bit value. -/
def b64Char (i : Nat) : Nat := b64Alphabet.getD i 0

/-- The 6-bit value of a character, if it is in the alphabet. -/
def b64Index (c : Nat) : Option Nat :=
  let i := b64Alphabet.indexOf c
  if i < 64 then some i else none

/-- `base64.StdEncoding.EncodeToString`: three bytes give four characters, the last
group is padded with `=` (61). -/
def b64Encode : Bytes → Bytes
  | [] => []
  | [x] =>
    let val := x * 65536
    [b64Char (val / 262144 % 64), b64Char (val / 4096 % 64), 61, 61]
  | [x, y] =>
    let val := x * 65536 + y * 256
    [b64Char (val / 262144 % 64), b64Char (val / 4096 % 64), b64Char (val / 64 % 64), 61]
  | x :: y :: z :: rest =>
    let val := x * 65536 + y * 256 + z
    b64Char (val / 262144 % 64) :: b64Char (val / 4096 % 64) :: b64Char (val / 64 % 64)
      :: b64Char (val % 64) :: b64Encode rest

/-- Decodes the groups of four characters; padding may close the last group only. -/
def b64DecodeQuanta : Bytes → Except Err Bytes
  | [] => .ok []
  | c0 :: c1 :: c2 :: c3 :: rest =>
    match b64Index c0, b64Index c1 with
    | some i0, some i1 =>
      match b64Index c2, b64Index c3 with
      | some i2, some i3 =>
        let val := i0 * 262144 + i1 * 4096 + i2 * 64 + i3
        match b64DecodeQuanta rest with
        | .ok out => .ok (val / 65536 % 256 :: val / 256 % 256 :: val % 256 :: out)
        | .error e => .error e
      | some i2, none =>
        let val := i0 * 262144 + i1 * 4096 + i2 * 64
        if c3 = 61 ∧ rest = [] then .ok [val / 65536 % 256, val / 256 % 256]
        else .error .corruptInput
      | none, _ =>
        let val := i0 * 262144 + i1 * 4096
        if c2 = 61 ∧ c3 = 61 ∧ rest = [] then .ok [val / 65536 % 256]
        else .error .corruptInput
    | _, _ => .error .corruptInput
  | _ => .error .corruptInput

/-- `base64.StdEncoding.DecodeString`: line feeds and carriage returns are skipped. -/
def b64Decode (s : Bytes) : Except Err Bytes :=
  b64DecodeQuanta (s.filter (fun c => c ≠ 10 ∧ c ≠ 13))

/-- `fmt.Sprint(uid)` / `fmt.Sprintf("%d", uid)`: the decimal digits of `uid`. -/
def decimal (n : Nat) : Bytes := (Nat.toDigits 10 n).map Char.toNat

/-! ## Access tokens -/

/-- Conversion `uint32(t.Unix())` of a time given by its Unix seconds. -/
def unixUint32 (t : Int) : Nat := (t % 4294967296).toNat

structure AccessToken where
  appID : Bytes
  appCertificate : Bytes
  channelName : Bytes
  uidStr : Bytes
  ts : Nat
  salt : Nat
  message : GoMap
  signature : Bytes
  crcChannelName : Nat
  crcUid : Nat
  msgRawContent : Bytes
  deriving DecidableEq, Repr

/-- The ranges that the Go field types impose on a request: `ts` and `salt` are
`uint32`, `message` is a map from `uint16` to `uint32`. -/
def AccessToken.WF (token : AccessToken) : Prop :=
  token.ts < 4294967296 ∧ token.salt < 4294967296 ∧ token.message.WF

instance (token : AccessToken) : Decidable token.WF := by
  unfold AccessToken.WF; exact inferInstance

/-- `now` is `time.Now().Unix()` and `rnd` the draw `rand.Intn(max-min)` made by
`random(1, 99999999)`. -/
def NewAccessTokenStrUID (appID appCertificate channelName uid : Bytes)
    (now : Int) (rnd : Nat) : AccessToken :=
  let ts := (unixUint32 now + 24 * 3600) % 4294967296
  let salt := (rnd + 1) % 4294967296
  let message : GoMap := []
  ⟨appID, appCertificate, channelName, uid, ts, salt, message, [], 0, 0, []⟩

def NewAccessToken (appID appCertificate channelName : Bytes) (uid : Nat)
    (now : Int) (rnd : Nat) : AccessToken :=
  let uidStr := if uid = 0 then [] else decimal uid
  NewAccessTokenStrUID appID appCertificate channelName uidStr now rnd

def AccessToken.AddPrivilege (token : AccessToken) (privilege : Nat) (expireTimestamp : Int) :
    AccessToken :=
  let pri := privilege
  { token with message := token.message.set pri (unixUint32 expireTimestamp) }

def AccessToken.Build (token : AccessToken) : Except Err Bytes := do
  let version := dk6version
  let bufM : Bytes := []
  let bufM ← packUint32 bufM token.salt
  let bufM ← packUint32 bufM token.ts
  let bufM ← packMapUint32 bufM token.message
  let bytesM := bufM
  let bytesVal := token.appID ++ token.channelName ++ token.uidStr ++ bytesM
  let bytesSig := hmacSha256 token.appCertificate bytesVal
  let crcChannelName := crc32 token.channelName
  let crcUid := crc32 token.uidStr
  let bufContent : Bytes := []
  let bufContent ← packString bufContent bytesSig
  let bufContent ← packUint32 bufContent crcChannelName
  let bufContent ← packUint32 bufContent crcUid
  let bufContent ← packString bufContent bytesM
  let bytesContent := bufContent
  .ok (version ++ token.appID ++ b64Encode bytesContent)

/-- Slicing a string beyond its length is a run-time fault; every failure of a decoding
step is returned as the error, with no token. -/
def NewAccessTokenFromString (originToken : Bytes) : Outcome AccessToken :=
  if originToken.length < VersionLength then .fault else
  let originVersion := originToken.take VersionLength
  if originVersion ≠ dk6version then .error .versionMismatch else
  if originToken.length < VersionLength + AppIdLength then .fault else
  let originAppID := (originToken.take (VersionLength + AppIdLength)).drop VersionLength
  let originContent := originToken.drop (VersionLength + AppIdLength)
  match b64Decode originContent with
  | .error e => .error e
  | .ok originContentDecoded =>
    match unPackContent originContentDecoded with
    | .error e => .error e
    | .ok (signature_, crc_channel_name_, crc_uid_, msg_raw_content_) =>
      let token : AccessToken :=
        ⟨originAppID, [], [], [], 0, 0, [], signature_, crc_channel_name_, crc_uid_,
          msg_raw_content_⟩
      match unPackMessages token.msgRawContent with
      | .error e => .error e
      | .ok (salt_, ts_, messages_) =>
        .ok { token with salt := salt_, ts := ts_, message := messages_ }

/-! ## Token builders -/

def BuildRTCTokenWithUserAccount (appID appCertificate channelName userAccount : Bytes)
    (role : Nat) (privilegeExpiredTs : Int) (now : Int) (rnd : Nat) : Except Err Bytes :=
  let token := NewAccessTokenStrUID appID appCertificate channelName userAccount now rnd
  let token := token.AddPrivilege PrivilegeJoinChannel privilegeExpiredTs
  let token :=
    if role = RoleAttendee ∨ role = RolePublisher ∨ role = RoleAdmin then
      let token := token.AddPrivilege PrivilegePublishVideoStream privilegeExpiredTs
      let token := token.AddPrivilege PrivilegePublishAudioStream privilegeExpiredTs
      token.AddPrivilege PrivilegePublishDataStream privilegeExpiredTs
    else token
  token.Build

/-- The first statements of `BuildRTCTokenWithUID`: the user string computed from `uid`
(`uidStr := fmt.Sprint(uid); if uid == 0 { uidStr = "" }`). The statement after them
hands the `uint32` parameter `privilegeExpiredTs` to `BuildRTCTokenWithUserAccount`,
whose parameter is a `time.Time`; Go rejects that call, so the function as a whole has
no behaviour to embed and only these statements are. -/
def BuildRTCTokenWithUID_uidStr (uid : Nat) : Bytes :=
  let uidStr := decimal uid
  if uid = 0 then [] else uidStr

def BuildRTMToken (appID appCertificate userAccount : Bytes) (privilegeExpiredTs : Int)
    (now : Int) (rnd : Nat) : Except Err Bytes :=
  let token := NewAccessTokenStrUID appID appCertificate userAccount [] now rnd
  let token := token.AddPrivilege PrivilegeLoginRtm privilegeExpiredTs
  token.Build

/-! ## Wire layout

The byte layouts that the packing functions are compared with. -/

/-- The keys of a map in ascending order. -/
def GoMap.sortedKeys (m : GoMap) : List Nat := m.keys.insertionSort (· ≤ ·)

/-- The entries of a map listed by ascending key. -/
def GoMap.canonical (m : GoMap) : GoMap := m.sortedKeys.map (fun k => (k, m.get k))

/-- One record per key: the key on 16 bits, its value on 32 bits. -/
def recordBytes (extra : GoMap) (ks : List Nat) : Bytes :=
  ks.flatMap (fun k => le16 (k % 65536) ++ le32 (extra.get k))

/-- The count on 16 bits, then the records by ascending key. -/
def mapBytes (m : GoMap) : Bytes := le16 (m.length % 65536) ++ recordBytes m m.sortedKeys

/-- Block M: salt, timestamp, privilege map. -/
def AccessToken.messageBlock (token : AccessToken) : Bytes :=
  le32 token.salt ++ le32 token.ts ++ mapBytes token.message

/-- The keyed hash over `appID ++ channelName ++ uidStr ++ M`. -/
def AccessToken.signatureBytes (token : AccessToken) : Bytes :=
  hmacSha256 token.appCertificate
    (token.appID ++ token.channelName ++ token.uidStr ++ token.messageBlock)

/-- Block Content: signature, the two checksums, block M. -/
def AccessToken.contentBlock (token : AccessToken) : Bytes :=
  le16 (token.signatureBytes.length % 65536) ++ token.signatureBytes
    ++ le32 (crc32 token.channelName) ++ le32 (crc32 token.uidStr)
    ++ le16 (token.messageBlock.length % 65536) ++ token.messageBlock

/-- The token string of a request. -/
def AccessToken.tokenString (token : AccessToken) : Bytes :=
  dk6version ++ token.appID ++ b64Encode token.contentBlock

/-- The token assembled from a parsed content block and a decoded message block. -/
def parsedToken (token : AccessToken) (raw : Bytes) (r : Nat × Nat × GoMap) : AccessToken :=
  ⟨token.appID, [], [], [], r.2.1, r.1, r.2.2, token.signatureBytes, crc32 token.channelName,
    crc32 token.uidStr, raw⟩

/-- A map with the 10921 keys `0 .. 10920`. -/
def bigMap : GoMap := (List.range 10921).map (fun k => (k, 0))

/-- A request with 10921 privileges. -/
def bigRequest : AccessToken :=
  ⟨List.replicate 32 48, [], [], [], 0, 0, bigMap, [], 0, 0, []⟩

/-- A request with two privileges, inserted out of key order. -/
def smallRequest : AccessToken :=
  ⟨List.replicate 32 48, [115, 101, 99, 114, 101, 116], [99, 104], [55], 1600086400, 12346,
    [(3, 1446455471), (1, 1446455471)], [], 0, 0, []⟩

/-- A sequence of `AddPrivilege` calls, performed from left to right. -/
def AccessToken.addAll (token : AccessToken) (calls : List (Nat × Int)) : AccessToken :=
  calls.foldl (fun t c => t.AddPrivilege c.1 c.2) token

/-- A fresh request, as `NewAccessTokenStrUID` returns it. -/
def freshRequest : AccessToken :=
  NewAccessTokenStrUID (List.replicate 32 48) [115, 101, 99] [99, 104] [55] 1600000000 12345

/-- A token string of another version, too short to hold an application identifier. -/
def otherVersionToken : Bytes := ascii "007abc!"

/-- A buffer whose length field announces 5 bytes while a single byte follows. -/
def truncatedString : Bytes := [5, 0, 65]

/-- A content block with an empty signature, two zero checksums, and a message length
field of 10 with no message byte after it. -/
def truncatedContent : Bytes := [0, 0, 0, 0, 0, 0, 0, 0, 0, 0, 10, 0]

/-- The token string carrying `truncatedContent`. -/
def truncatedToken : Bytes := ascii "00600000000000000000000000000000000AAAAAAAAAAAAAAoA"

/-- The request that `BuildRTCTokenWithUserAccount` passes to `Build`. -/
def rtcRequest (appID appCertificate channelName userAccount : Bytes)
    (role : Nat) (privilegeExpiredTs : Int) (now : Int) (rnd : Nat) : AccessToken :=
  let token := NewAccessTokenStrUID appID appCertificate channelName userAccount now rnd
  let token := token.AddPrivilege PrivilegeJoinChannel privilegeExpiredTs
  if role = RoleAttendee ∨ role = RolePublisher ∨ role = RoleAdmin then
    let token := token.AddPrivilege PrivilegePublishVideoStream privilegeExpiredTs
    let token := token.AddPrivilege PrivilegePublishAudioStream privilegeExpiredTs
    token.AddPrivilege PrivilegePublishDataStream privilegeExpiredTs
  else token

/-- The request that `BuildRTMToken` passes to `Build`. -/
def rtmRequest (appID appCertificate userAccount : Bytes) (privilegeExpiredTs : Int)
    (now : Int) (rnd : Nat) : AccessToken :=
  let token := NewAccessTokenStrUID appID appCertificate userAccount [] now rnd
  token.AddPrivilege PrivilegeLoginRtm privilegeExpiredTs

/-- The privilege map of a session token, by ascending key. -/
def rtcPrivileges (role : Nat) (u : Nat) : GoMap :=
  if role = RoleAttendee ∨ role = RolePublisher ∨ role = RoleAdmin then
    [(PrivilegeJoinChannel, u), (PrivilegePublishAudioStream, u),
      (PrivilegePublishVideoStream, u), (PrivilegePublishDataStream, u)]
  else [(PrivilegeJoinChannel, u)]

/-- The number written by a string of ASCII digits, most significant digit first. -/
def decimalValue (s : Bytes) : Nat := s.foldl (fun a c => 10 * a + (c - 48)) 0

/-- The string `s` is the decimal representation of `n`: it is not empty, consists of
the ASCII digits `0` .. `9`, does not start with `0`, and writes the number `n`. -/
def IsDecimalOf (n : Nat) (s : Bytes) : Prop :=
  s ≠ [] ∧ (∀ c ∈ s, 48 ≤ c ∧ c ≤ 57) ∧ s.head? ≠ some 48 ∧ decimalValue s = n

instance (n : Nat) (s : Bytes) : Decidable (IsDecimalOf n s) := by
  unfold IsDecimalOf; exact inferInstance

/-- The user scope that the specification assigns to an integer uid: the empty string
for 0, the decimal representation of the uid otherwise. -/
def IsUserScopeOf (uid : Nat) (s : Bytes) : Prop :=
  if uid = 0 then s = [] else IsDecimalOf uid s

instance (uid : Nat) (s : Bytes) : Decidable (IsUserScopeOf uid s) := by
  unfold IsUserScopeOf; exact inferInstance

/-- The request `smallRequest` with its privileges listed in the other order and with
the fields that only a parsed token fills (signature, checksums, raw message) set. -/
def smallRequestReordered : AccessToken :=
  ⟨List.replicate 32 48, [115, 101, 99, 114, 101, 116], [99, 104], [55], 1600086400, 12346,
    [(1, 1446455471), (3, 1446455471)], [1, 2, 3], 77, 78, [9]⟩

/-- The little-endian 16-bit value at bytes `i, i+1` of `m`. -/
def u16At (m : Bytes) (i : Nat) : Nat := m.getD i 0 + 256 * m.getD (i + 1) 0

/-- The little-endian 32-bit value at bytes `i .. i+3` of `m`. -/
def u32At (m : Bytes) (i : Nat) : Nat :=
  m.getD i 0 + 256 * m.getD (i + 1) 0 + 65536 * m.getD (i + 2) 0 + 16777216 * m.getD (i + 3) 0

/-- The first `c` records of `r`, six bytes each: the key on 16 bits, the value on 32 bits,
little-endian. -/
def wireRecords : Nat → Bytes → List (Nat × Nat)
  | c + 1, b0 :: b1 :: b2 :: b3 :: b4 :: b5 :: rest =>
    (b0 + 256 * b1, b2 + 256 * b3 + 65536 * b4 + 16777216 * b5) :: wireRecords c rest
  | _, _ => []

/-- The map obtained by assigning the records one after the other to an empty map. -/
def GoMap.ofRecords (rs : List (Nat × Nat)) : GoMap :=
  rs.foldl (fun acc p => acc.set p.1 p.2) []

/-- A message block of 23 bytes: salt 1, ts 2, count 2, the records `(7, 5)` and
`(7, 9)`, and one byte more. -/
def sampleMessage : Bytes :=
  [1, 0, 0, 0, 2, 0, 0, 0, 2, 0, 7, 0, 5, 0, 0, 0, 7, 0, 9, 0, 0, 0, 255]

/-- The wire form of a list of records, in the order given. -/
def encodeRecords (rs : List (Nat × Nat)) : Bytes := rs.flatMap (fun p => le16 p.1 ++ le32 p.2)

/-- A message block as laid out on the wire: salt, timestamp, count, records. -/
def wireMessage (salt ts : Nat) (rs : List (Nat × Nat)) : Bytes :=
  le32 salt ++ le32 ts ++ le16 rs.length ++ encodeRecords rs

/-- A content block as laid out on the wire. -/
def wireContent (sig : Bytes) (crcChannel crcUser : Nat) (message : Bytes) : Bytes :=
  le16 sig.length ++ sig ++ le32 crcChannel ++ le32 crcUser ++ le16 message.length ++ message

/-- A token string as laid out on the wire. -/
def wireToken (appID content : Bytes) : Bytes := dk6version ++ appID ++ b64Encode content

/-- The map that holds every 16-bit key. -/
def fullMap : GoMap := (List.range 65536).map (fun k => (k, 0))

/-- A request whose map holds every 16-bit key. -/
def fullRequest : AccessToken :=
  ⟨List.replicate 32 48, [], [], [], 0, 0, fullMap, [], 0, 0, []⟩

/-! ## Binary primitives: basic facts -/

theorem unPackUint16_le16 (n : Nat) (r : Bytes) :
    unPackUint16 (le16 n ++ r) = .ok (n % 65536, r) := by
  simp only [le16, unPackUint16, List.cons_append, List.nil_append]
  congr 2; omega

theorem unPackUint32_le32 (n : Nat) (r : Bytes) :
    unPackUint32 (le32 n ++ r) = .ok (n % 4294967296, r) := by
  simp only [le32, unPackUint32, List.cons_append, List.nil_append]
  congr 2; omega

theorem le16_length (n : Nat) : (le16 n).length = 2 := rfl

theorem le32_length (n : Nat) : (le32 n).length = 4 := rfl

theorem le16_lt (n : Nat) : ∀ b ∈ le16 n, b < 256 := by
  intro b hb
  simp only [le16, List.mem_cons, List.mem_singleton, List.not_mem_nil, or_false] at hb
  rcases hb with h | h <;> subst h <;> exact Nat.mod_lt _ (by decide)

theorem le32_lt (n : Nat) : ∀ b ∈ le32 n, b < 256 := by
  intro b hb
  simp only [le32, List.mem_cons, List.mem_singleton, List.not_mem_nil, or_false] at hb
  rcases hb with h | h | h | h <;> subst h <;> exact Nat.mod_lt _ (by decide)

theorem be32_lt (n : Nat) : ∀ b ∈ be32 n, b < 256 := by
  intro b hb
  simp only [be32, List.mem_cons, List.mem_singleton, List.not_mem_nil, or_false] at hb
  rcases hb with h | h | h | h <;> subst h <;> exact Nat.mod_lt _ (by decide)

/-! ## What the packing functions write -/

theorem packEntries_eq (extra : GoMap) (ks : List Nat) (w : Bytes) :
    packEntries w extra ks = .ok (w ++ recordBytes extra ks) := by
  induction ks generalizing w with
  | nil => simp [packEntries, recordBytes]
  | cons k ks ih =>
    simp only [packEntries, packUint16, packUint32, bind, Except.bind, ih]
    simp [recordBytes, List.flatMap_cons]

theorem packMapUint32_eq (w : Bytes) (extra : GoMap) :
    packMapUint32 w extra = .ok (w ++ mapBytes extra) := by
  simp only [packMapUint32, packUint16, bind, Except.bind, packEntries_eq]
  simp [mapBytes, GoMap.sortedKeys]

theorem packString_eq (w s : Bytes) :
    packString w s = .ok (w ++ le16 (s.length % 65536) ++ s) := by
  simp [packString, packUint16, bind, Except.bind]

theorem Build_eq (token : AccessToken) : token.Build = .ok token.tokenString := by
  simp only [AccessToken.Build, packUint32, packMapUint32_eq, packString_eq, bind, Except.bind]
  simp [AccessToken.tokenString, AccessToken.contentBlock, AccessToken.signatureBytes,
    AccessToken.messageBlock]

/-! ## Base64: decoding undoes encoding -/

theorem b64Index_b64Char : ∀ i < 64, b64Index (b64Char i) = some i := by decide

theorem b64Char_ne_newline : ∀ i < 64, b64Char i ≠ 10 ∧ b64Char i ≠ 13 := by decide

theorem b64Index_pad : b64Index 61 = none := by decide

theorem b64Encode_no_newline (bs : Bytes) : ∀ c ∈ b64Encode bs, c ≠ 10 ∧ c ≠ 13 := by
  induction bs using b64Encode.induct with
  | case1 => simp [b64Encode]
  | case2 x =>
    intro c hc
    simp only [b64Encode, List.mem_cons, List.mem_singleton, List.not_mem_nil, or_false] at hc
    rcases hc with h | h | h | h <;> subst h <;>
      first | exact b64Char_ne_newline _ (Nat.mod_lt _ (by decide)) | decide
  | case3 x y =>
    intro c hc
    simp only [b64Encode, List.mem_cons, List.mem_singleton, List.not_mem_nil, or_false] at hc
    rcases hc with h | h | h | h <;> subst h <;>
      first | exact b64Char_ne_newline _ (Nat.mod_lt _ (by decide)) | decide
  | case4 x y z rest ih =>
    intro c hc
    simp only [b64Encode, List.mem_cons] at hc
    rcases hc with h | h | h | h | h
    · subst h; exact b64Char_ne_newline _ (Nat.mod_lt _ (by decide))
    · subst h; exact b64Char_ne_newline _ (Nat.mod_lt _ (by decide))
    · subst h; exact b64Char_ne_newline _ (Nat.mod_lt _ (by decide))
    · subst h; exact b64Char_ne_newline _ (Nat.mod_lt _ (by decide))
    · exact ih c h

theorem b64DecodeQuanta_b64Encode (bs : Bytes) (hb : ∀ b ∈ bs, b < 256) :
    b64DecodeQuanta (b64Encode bs) = .ok bs := by
  induction bs using b64Encode.induct with
  | case1 => simp [b64Encode, b64DecodeQuanta]
  | case2 x =>
    have hx : x < 256 := hb x (by simp)
    simp only [b64Encode, b64DecodeQuanta, b64Index_b64Char _ (Nat.mod_lt _ (by decide : 64 > 0)),
      b64Index_pad]
    simp only [and_self, if_true]
    congr 2; omega
  | case3 x y =>
    have hx : x < 256 := hb x (by simp)
    have hy : y < 256 := hb y (by simp)
    simp only [b64Encode, b64DecodeQuanta, b64Index_b64Char _ (Nat.mod_lt _ (by decide : 64 > 0)),
      b64Index_pad]
    simp only [and_self, if_true]
    congr 2
    · omega
    · congr 1; omega
  | case4 x y z rest ih =>
    have hx : x < 256 := hb x (by simp)
    have hy : y < 256 := hb y (by simp)
    have hz : z < 256 := hb z (by simp)
    have ih := ih (fun b h => hb b (by simp [h]))
    simp only [b64Encode, b64DecodeQuanta, b64Index_b64Char _ (Nat.mod_lt _ (by decide : 64 > 0)), ih]
    congr 2
    · omega
    · congr 1
      · omega
      · congr 1; omega

theorem b64Decode_b64Encode (bs : Bytes) (hb : ∀ b ∈ bs, b < 256) :
    b64Decode (b64Encode bs) = .ok bs := by
  unfold b64Decode
  rw [List.filter_eq_self.2, b64DecodeQuanta_b64Encode bs hb]
  intro c hc
  have := b64Encode_no_newline bs c hc
  simp [this.1, this.2]
/-! ## Sizes and byte ranges of the blocks -/

theorem sha256_length (msg : Bytes) : (sha256 msg).length = 32 := by
  simp [sha256, be32]

theorem sha256_lt (msg : Bytes) : ∀ b ∈ sha256 msg, b < 256 := by
  intro b hb
  simp only [sha256, List.mem_append] at hb
  rcases hb with ((((((h | h) | h) | h) | h) | h) | h) | h <;> exact be32_lt _ b h

theorem hmacSha256_length (key msg : Bytes) : (hmacSha256 key msg).length = 32 :=
  sha256_length _

theorem hmacSha256_lt (key msg : Bytes) : ∀ b ∈ hmacSha256 key msg, b < 256 :=
  sha256_lt _

theorem recordBytes_lt (extra : GoMap) (ks : List Nat) : ∀ b ∈ recordBytes extra ks, b < 256 := by
  intro b hb
  simp only [recordBytes, List.mem_flatMap, List.mem_append] at hb
  obtain ⟨k, _, h | h⟩ := hb
  · exact le16_lt _ b h
  · exact le32_lt _ b h

theorem recordBytes_length (extra : GoMap) (ks : List Nat) :
    (recordBytes extra ks).length = 6 * ks.length := by
  induction ks with
  | nil => rfl
  | cons k ks ih =>
    simp only [recordBytes, List.flatMap_cons, List.length_append, le16_length, le32_length,
      List.length_cons] at ih ⊢
    omega

theorem sortedKeys_perm (m : GoMap) : m.sortedKeys.Perm m.keys :=
  List.perm_insertionSort _ _

theorem sortedKeys_length (m : GoMap) : m.sortedKeys.length = m.length := by
  rw [(sortedKeys_perm m).length_eq, GoMap.keys, List.length_map]

theorem mapBytes_length (m : GoMap) : (mapBytes m).length = 2 + 6 * m.length := by
  simp [mapBytes, recordBytes_length, sortedKeys_length, le16_length]

theorem mapBytes_lt (m : GoMap) : ∀ b ∈ mapBytes m, b < 256 := by
  intro b hb
  simp only [mapBytes, List.mem_append] at hb
  rcases hb with h | h
  · exact le16_lt _ b h
  · exact recordBytes_lt _ _ b h

theorem messageBlock_length (token : AccessToken) :
    token.messageBlock.length = 10 + 6 * token.message.length := by
  simp only [AccessToken.messageBlock, List.length_append, le32_length, mapBytes_length]
  omega

theorem messageBlock_lt (token : AccessToken) : ∀ b ∈ token.messageBlock, b < 256 := by
  intro b hb
  simp only [AccessToken.messageBlock, List.mem_append] at hb
  rcases hb with (h | h) | h
  · exact le32_lt _ b h
  · exact le32_lt _ b h
  · exact mapBytes_lt _ b h

theorem contentBlock_lt (token : AccessToken) : ∀ b ∈ token.contentBlock, b < 256 := by
  intro b hb
  simp only [AccessToken.contentBlock, List.mem_append] at hb
  rcases hb with ((((h | h) | h) | h) | h) | h
  · exact le16_lt _ b h
  · exact hmacSha256_lt _ _ b h
  · exact le32_lt _ b h
  · exact le32_lt _ b h
  · exact le16_lt _ b h
  · exact messageBlock_lt _ b h

/-- Reading a length-delimited string: the declared number of bytes, padded with
zeros when fewer are left. -/
theorem unPackString_le16 (n : Nat) (r : Bytes) :
    unPackString (le16 n ++ r) =
      .ok (r.take (n % 65536) ++ List.replicate (n % 65536 - r.length) 0, r.drop (n % 65536)) := by
  simp [unPackString, unPackUint16_le16, bind, Except.bind]

theorem crc32_lt (data : Bytes) : crc32 data < 4294967296 := Nat.mod_lt _ (by decide)

theorem unPackContent_contentBlock (token : AccessToken) :
    unPackContent token.contentBlock =
      .ok (token.signatureBytes, crc32 token.channelName, crc32 token.uidStr,
        token.messageBlock.take (token.messageBlock.length % 65536)) := by
  have hs : token.signatureBytes.length = 32 := hmacSha256_length _ _
  have hL : token.messageBlock.length % 65536 ≤ token.messageBlock.length := Nat.mod_le _ _
  simp only [unPackContent, AccessToken.contentBlock, List.append_assoc, unPackString_le16, hs,
    bind, Except.bind]
  simp only [Nat.reduceMod, List.take_left' hs, List.drop_left' hs, unPackUint32_le32,
    Nat.mod_eq_of_lt (crc32_lt _), unPackString_le16, Nat.mod_mod]
  simp [Nat.sub_eq_zero_of_le hL, hs]
/-! ## Parsing a built token -/

theorem dk6version_eq : dk6version = [48, 48, 54] := by decide

theorem parse_tokenString (token : AccessToken) (h32 : token.appID.length = 32) :
    NewAccessTokenFromString token.tokenString =
      match unPackMessages (token.messageBlock.take (token.messageBlock.length % 65536)) with
      | .error e => .error e
      | .ok r => .ok (parsedToken token
          (token.messageBlock.take (token.messageBlock.length % 65536)) r) := by
  have hlen : token.tokenString.length = 35 + (b64Encode token.contentBlock).length := by
    simp [AccessToken.tokenString, dk6version_eq, h32]; omega
  have htake : token.tokenString.take 3 = dk6version := by
    simp [AccessToken.tokenString, dk6version_eq]
  have happ : (token.tokenString.take 35).drop 3 = token.appID := by
    simp only [AccessToken.tokenString, dk6version_eq, List.append_assoc, List.cons_append,
      List.nil_append, List.take_succ_cons, List.drop_succ_cons, List.drop_zero]
    exact List.take_left' h32
  have hcont : token.tokenString.drop 35 = b64Encode token.contentBlock := by
    simp only [AccessToken.tokenString, dk6version_eq, List.append_assoc, List.cons_append,
      List.nil_append, List.drop_succ_cons]
    exact List.drop_left' h32
  simp only [NewAccessTokenFromString, VersionLength, AppIdLength, hlen, htake, happ, hcont,
    b64Decode_b64Encode _ (contentBlock_lt token), unPackContent_contentBlock]
  simp only [Nat.reduceAdd, ne_eq, not_true_eq_false, if_false]
  rw [if_neg (by omega), if_neg (by omega)]
  cases h : unPackMessages (token.messageBlock.take (token.messageBlock.length % 65536)) with
  | error e => rfl
  | ok r => rfl
/-! ## Maps: lookups, assignment and the canonical order -/

theorem GoMap.lookup?_eq_none {m : GoMap} {k : Nat} : m.lookup? k = none ↔ k ∉ m.keys := by
  induction m with
  | nil => simp [GoMap.lookup?, GoMap.keys]
  | cons p m ih =>
    obtain ⟨k', v⟩ := p
    simp only [GoMap.lookup?, GoMap.keys, List.map_cons, List.mem_cons, not_or] at ih ⊢
    by_cases h : k' = k
    · simp [h]
    · simp [h, ih, Ne.symm h]

theorem GoMap.lookup?_eq_some {m : GoMap} (hm : m.keys.Nodup) {k v : Nat} :
    m.lookup? k = some v ↔ (k, v) ∈ m := by
  induction m with
  | nil => simp [GoMap.lookup?]
  | cons p m ih =>
    obtain ⟨k', v'⟩ := p
    simp only [GoMap.keys, List.map_cons, List.nodup_cons] at hm
    simp only [GoMap.lookup?, List.mem_cons, Prod.mk.injEq]
    by_cases h : k' = k
    · subst h
      simp only [if_true, Option.some.injEq, true_and]
      constructor
      · intro h; exact Or.inl h.symm
      · rintro (h | h)
        · exact h.symm
        · exact absurd (List.mem_map_of_mem Prod.fst h) hm.1
    · simp only [h, if_false, ih hm.2]
      constructor
      · intro h'; exact Or.inr h'
      · rintro (h' | h')
        · exact absurd h'.1.symm h
        · exact h'

theorem GoMap.lookup?_perm {m₁ m₂ : GoMap} (hp : m₁.Perm m₂) (h₁ : m₁.keys.Nodup) (k : Nat) :
    m₁.lookup? k = m₂.lookup? k := by
  have h₂ : m₂.keys.Nodup := ((hp.map Prod.fst).nodup_iff).1 h₁
  cases h : m₂.lookup? k with
  | none =>
    rw [GoMap.lookup?_eq_none] at h ⊢
    intro hk; exact h ((hp.map Prod.fst).mem_iff.1 hk)
  | some v =>
    rw [GoMap.lookup?_eq_some h₂] at h
    rw [GoMap.lookup?_eq_some h₁]
    exact hp.mem_iff.2 h

theorem GoMap.set_of_not_mem {m : GoMap} {k : Nat} (v : Nat) (hk : k ∉ m.keys) :
    m.set k v = m ++ [(k, v)] := by
  induction m with
  | nil => rfl
  | cons p m ih =>
    obtain ⟨k', v'⟩ := p
    simp only [GoMap.keys, List.map_cons, List.mem_cons, not_or] at hk
    simp only [GoMap.set, if_neg (Ne.symm hk.1), List.cons_append]
    rw [ih hk.2]

theorem GoMap.map_get_keys {m : GoMap} (hm : m.keys.Nodup) :
    m.keys.map (fun k => (k, m.get k)) = m := by
  have key : ∀ p ∈ m, (p.1, m.get p.1) = p := by
    intro p hp
    have : m.lookup? p.1 = some p.2 := (GoMap.lookup?_eq_some hm).2 hp
    simp [GoMap.get, this]
  simp only [GoMap.keys, List.map_map]
  calc m.map ((fun k => (k, m.get k)) ∘ Prod.fst) = m.map id :=
        List.map_congr_left (fun p hp => key p hp)
    _ = m := List.map_id m

theorem GoMap.canonical_perm {m : GoMap} (hm : m.keys.Nodup) : m.canonical.Perm m := by
  have h := (sortedKeys_perm m).map (fun k => (k, m.get k))
  rw [GoMap.map_get_keys hm] at h
  exact h

theorem GoMap.canonical_keys (m : GoMap) : m.canonical.keys = m.sortedKeys := by
  simp [GoMap.canonical, GoMap.keys, List.map_map, Function.comp_def]

theorem GoMap.get_lt {m : GoMap} (hm : m.WF) (k : Nat) : m.get k < 4294967296 := by
  unfold GoMap.get
  cases h : m.lookup? k with
  | none => simp
  | some v => exact ((hm.2 _ ((GoMap.lookup?_eq_some hm.1).1 h)).2)

theorem GoMap.key_lt {m : GoMap} (hm : m.WF) {k : Nat} (hk : k ∈ m.keys) : k < 65536 := by
  simp only [GoMap.keys, List.mem_map] at hk
  obtain ⟨p, hp, rfl⟩ := hk
  exact (hm.2 p hp).1

/-! ## Decoding the message block -/

theorem unPackRecords_recordBytes (m : GoMap) (hm : m.WF) (ks : List Nat) :
    ∀ (acc : GoMap) (rest : Bytes), (∀ k ∈ ks, k ∈ m.keys) → ks.Nodup →
      (∀ k ∈ ks, k ∉ acc.keys) →
      unPackRecords ks.length (recordBytes m ks ++ rest) acc
        = .ok (acc ++ ks.map (fun k => (k, m.get k))) := by
  induction ks with
  | nil => intro acc rest _ _ _; simp [unPackRecords]
  | cons k ks ih =>
    intro acc rest hmem hnd hdis
    have hk : k < 65536 := GoMap.key_lt hm (hmem k (by simp))
    have hv : m.get k < 4294967296 := GoMap.get_lt hm k
    rw [List.nodup_cons] at hnd
    have hkacc : k ∉ acc.keys := hdis k (by simp)
    simp only [recordBytes, List.flatMap_cons, List.length_cons, unPackRecords, List.append_assoc,
      unPackUint16_le16, unPackUint32_le32, bind, Except.bind, Nat.mod_mod, Nat.mod_eq_of_lt hk,
      Nat.mod_eq_of_lt hv]
    rw [GoMap.set_of_not_mem _ hkacc]
    have := ih (acc ++ [(k, m.get k)]) rest (fun k' h => hmem k' (by simp [h])) hnd.2
      (by
        intro k' hk' hin
        simp only [GoMap.keys, List.map_append, List.map_cons, List.map_nil, List.mem_append,
          List.mem_singleton] at hin
        rcases hin with h | h
        · exact hdis k' (by simp [hk']) h
        · subst h; exact hnd.1 hk')
    simp only [recordBytes] at this
    rw [this]
    simp

theorem unPackMessages_messageBlock (token : AccessToken) (hwf : token.WF)
    (hn : token.message.length < 65536) :
    unPackMessages token.messageBlock = .ok (token.salt, token.ts, token.message.canonical) := by
  obtain ⟨hts, hsalt, hm⟩ := hwf
  have hrec := unPackRecords_recordBytes token.message hm token.message.sortedKeys [] []
    (fun k hk => (sortedKeys_perm token.message).mem_iff.1 hk)
    ((sortedKeys_perm token.message).nodup_iff.2 hm.1)
    (fun k _ => by simp [GoMap.keys])
  rw [sortedKeys_length, List.append_nil, List.nil_append] at hrec
  simp only [unPackMessages, AccessToken.messageBlock, mapBytes, List.append_assoc,
    unPackUint32_le32, unPackUint16_le16, bind, Except.bind, Nat.mod_mod, Nat.mod_eq_of_lt hn,
    Nat.mod_eq_of_lt hts, Nat.mod_eq_of_lt hsalt, hrec]
  rfl

/-! ## Round trip -/

theorem parse_Build (token : AccessToken) (hwf : token.WF) (h32 : token.appID.length = 32)
    (hn : token.message.length ≤ 10920) :
    NewAccessTokenFromString token.tokenString =
      .ok (parsedToken token token.messageBlock
        (token.salt, token.ts, token.message.canonical)) := by
  have hlen := messageBlock_length token
  have hmod : token.messageBlock.length % 65536 = token.messageBlock.length :=
    Nat.mod_eq_of_lt (by omega)
  rw [parse_tokenString token h32, hmod, List.take_of_length_le (Nat.le_refl _),
    unPackMessages_messageBlock token hwf (by omega)]

/-- C1, as stated, fails: the request `bigRequest` is well formed and has a
32-character appID, its token is built without error, and parsing that token
returns an error (`EOF`) instead of the privilege map. -/
theorem roundtrip_fails_at_10921 :
    bigRequest.WF ∧ bigRequest.appID.length = 32 ∧ bigRequest.message.length = 10921 ∧
      ∃ s, bigRequest.Build = .ok s ∧ NewAccessTokenFromString s = .error .EOF := by
  have hmsg : bigRequest.message = (List.range 10921).map (fun k => (k, 0)) := by
    rw [bigRequest, bigMap]
  have happ : bigRequest.appID.length = 32 := by
    rw [bigRequest]; exact List.length_replicate _ _
  have hts : bigRequest.ts = 0 := by rw [bigRequest]
  have hsalt : bigRequest.salt = 0 := by rw [bigRequest]
  have hlen : bigRequest.message.length = 10921 := by
    rw [hmsg, List.length_map, List.length_range]
  have hwf : bigRequest.WF := by
    refine ⟨by rw [hts]; decide, by rw [hsalt]; decide, ?_, ?_⟩
    · rw [hmsg, GoMap.keys, List.map_map]
      exact (List.nodup_range 10921).map (fun a b h => h)
    · intro p hp
      rw [hmsg, List.mem_map] at hp
      obtain ⟨k, hk, rfl⟩ := hp
      rw [List.mem_range] at hk
      exact ⟨Nat.lt_trans hk (by decide), Nat.zero_lt_succ _⟩
  refine ⟨hwf, happ, hlen, bigRequest.tokenString, Build_eq _, ?_⟩
  have hM : bigRequest.messageBlock.length % 65536 = 0 := by
    rw [messageBlock_length, hlen]
  rw [parse_tokenString _ happ, hM, List.take_zero]
  rfl

/-- C1 (amended): for every well-formed request with a 32-character appID and at most
10920 privileges, `Build` succeeds and `NewAccessTokenFromString` of the built string
succeeds with the request's salt and ts and with a privilege map equal to the
request's map (the same entries, hence the same lookup for every key). -/
theorem roundtrip_Build_parse (token : AccessToken) (hwf : token.WF)
    (h32 : token.appID.length = 32) (hn : token.message.length ≤ 10920) :
    ∃ s parsed, token.Build = .ok s ∧ NewAccessTokenFromString s = .ok parsed ∧
      parsed.salt = token.salt ∧ parsed.ts = token.ts ∧
      parsed.message.Perm token.message ∧
      ∀ k, parsed.message.lookup? k = token.message.lookup? k := by
  refine ⟨token.tokenString, _, Build_eq token, parse_Build token hwf h32 hn, rfl, rfl, ?_, ?_⟩
  · exact GoMap.canonical_perm hwf.2.2.1
  · intro k
    have hp : token.message.canonical.Perm token.message := GoMap.canonical_perm hwf.2.2.1
    exact (GoMap.lookup?_perm hp.symm hwf.2.2.1 k).symm

theorem roundtrip_Build_parse_witness :
    smallRequest.WF ∧ smallRequest.appID.length = 32 ∧ smallRequest.message.length ≤ 10920 ∧
    ∃ s parsed, smallRequest.Build = .ok s ∧ NewAccessTokenFromString s = .ok parsed ∧
      parsed.salt = smallRequest.salt ∧ parsed.ts = smallRequest.ts ∧
      parsed.message.Perm smallRequest.message ∧
      ∀ k, parsed.message.lookup? k = smallRequest.message.lookup? k :=
  ⟨by decide, by decide, by decide,
    roundtrip_Build_parse smallRequest (by decide) (by decide) (by decide)⟩

/-! ## Canonical ordering -/

theorem GoMap.keys_set (m : GoMap) (k v : Nat) :
    (m.set k v).keys = if k ∈ m.keys then m.keys else m.keys ++ [k] := by
  induction m with
  | nil => simp [GoMap.set, GoMap.keys]
  | cons p m ih =>
    obtain ⟨k', v'⟩ := p
    simp only [GoMap.keys, List.map_cons, List.mem_cons] at ih ⊢
    by_cases h : k' = k
    · subst h; simp [GoMap.set]
    · have h' : ¬ k = k' := fun e => h e.symm
      simp only [GoMap.set, if_neg h, List.map_cons, ih, h', false_or]
      split <;> simp

theorem GoMap.nodup_set {m : GoMap} (hm : m.keys.Nodup) (k v : Nat) :
    (m.set k v).keys.Nodup := by
  rw [GoMap.keys_set]
  split
  · exact hm
  · rename_i h
    exact List.Nodup.append hm (List.nodup_singleton k) (by simpa using h)

theorem addAll_message_nodup (calls : List (Nat × Int)) :
    ∀ token : AccessToken, token.message.keys.Nodup → (token.addAll calls).message.keys.Nodup := by
  induction calls with
  | nil => intro token h; exact h
  | cons c calls ih =>
    intro token h
    exact ih (token.AddPrivilege c.1 c.2) (GoMap.nodup_set h _ _)

theorem addAll_frame (calls : List (Nat × Int)) :
    ∀ token : AccessToken,
      token.addAll calls = { token with message := (token.addAll calls).message } := by
  induction calls with
  | nil => intro token; rfl
  | cons c calls ih =>
    intro token
    have h := ih (token.AddPrivilege c.1 c.2)
    simp only [AccessToken.addAll, List.foldl_cons] at h ⊢
    rw [h]
    rfl

theorem GoMap.keys_perm_of_lookup {m₁ m₂ : GoMap} (h₁ : m₁.keys.Nodup) (h₂ : m₂.keys.Nodup)
    (h : ∀ k, m₁.lookup? k = m₂.lookup? k) : m₁.keys.Perm m₂.keys := by
  rw [List.perm_ext_iff_of_nodup h₁ h₂]
  intro k
  have h1 := @GoMap.lookup?_eq_none m₁ k
  have h2 := @GoMap.lookup?_eq_none m₂ k
  rw [h k] at h1
  constructor
  · intro hk; by_contra hn; exact (h1.1 (h2.2 hn)) hk
  · intro hk; by_contra hn; exact (h2.1 (h1.2 hn)) hk

theorem sortedKeys_sorted (m : GoMap) : m.sortedKeys.Sorted (· ≤ ·) :=
  List.sorted_insertionSort _ _

theorem mapBytes_congr {m₁ m₂ : GoMap} (h₁ : m₁.keys.Nodup) (h₂ : m₂.keys.Nodup)
    (h : ∀ k, m₁.lookup? k = m₂.lookup? k) : mapBytes m₁ = mapBytes m₂ := by
  have hp := GoMap.keys_perm_of_lookup h₁ h₂ h
  have hs : m₁.sortedKeys = m₂.sortedKeys :=
    List.eq_of_perm_of_sorted
      (((sortedKeys_perm m₁).trans hp).trans (sortedKeys_perm m₂).symm)
      (sortedKeys_sorted m₁) (sortedKeys_sorted m₂)
  have hl : m₁.length = m₂.length := by
    have := hp.length_eq
    simpa [GoMap.keys] using this
  have hg : ∀ k, m₁.get k = m₂.get k := fun k => by simp [GoMap.get, h k]
  simp only [mapBytes, recordBytes, hs, hl, hg]

/-- C2: the bytes written for a privilege map do not depend on the order in which the
privileges were added, nor on the order in which the map is iterated. Take a request
whose map has unique keys and two sequences of `AddPrivilege` calls after which every
key has the same lookup; let `m₁` and `m₂` list the two resulting maps in any iteration
order. Then `packMapUint32` writes the same bytes for `m₁` and `m₂`, and `Build`
returns the same token for the two requests. -/
theorem canonical_ordering (token : AccessToken) (calls₁ calls₂ : List (Nat × Int))
    (m₁ m₂ : GoMap) (w : Bytes) (hbase : token.message.keys.Nodup)
    (h₁ : m₁.Perm (token.addAll calls₁).message) (h₂ : m₂.Perm (token.addAll calls₂).message)
    (hsame : ∀ k, (token.addAll calls₁).message.lookup? k
      = (token.addAll calls₂).message.lookup? k) :
    packMapUint32 w m₁ = packMapUint32 w m₂ ∧
      ({ token.addAll calls₁ with message := m₁ } : AccessToken).Build
        = ({ token.addAll calls₂ with message := m₂ } : AccessToken).Build := by
  have n₁ := addAll_message_nodup calls₁ token hbase
  have n₂ := addAll_message_nodup calls₂ token hbase
  have k₁ : m₁.keys.Nodup := ((h₁.map Prod.fst).nodup_iff).2 n₁
  have k₂ : m₂.keys.Nodup := ((h₂.map Prod.fst).nodup_iff).2 n₂
  have hl : ∀ k, m₁.lookup? k = m₂.lookup? k := fun k => by
    rw [GoMap.lookup?_perm h₁ k₁ k, GoMap.lookup?_perm h₂ k₂ k, hsame k]
  have hb : mapBytes m₁ = mapBytes m₂ := mapBytes_congr k₁ k₂ hl
  refine ⟨by rw [packMapUint32_eq, packMapUint32_eq, hb], ?_⟩
  rw [Build_eq, Build_eq, addAll_frame calls₁ token, addAll_frame calls₂ token]
  simp only [AccessToken.tokenString, AccessToken.contentBlock, AccessToken.signatureBytes,
    AccessToken.messageBlock, hb]

theorem canonical_ordering_witness :
    freshRequest.message.keys.Nodup ∧
    (∀ k, (freshRequest.addAll [(3, 1446455471), (1, 1446455400)]).message.lookup? k
      = (freshRequest.addAll [(1, 1446455400), (3, 1446455471)]).message.lookup? k) ∧
    packMapUint32 [] [(3, 1446455471), (1, 1446455400)]
      = packMapUint32 [] [(1, 1446455400), (3, 1446455471)] ∧
    ({ freshRequest.addAll [(3, 1446455471), (1, 1446455400)] with
        message := [(3, 1446455471), (1, 1446455400)] } : AccessToken).Build
      = ({ freshRequest.addAll [(1, 1446455400), (3, 1446455471)] with
        message := [(1, 1446455400), (3, 1446455471)] } : AccessToken).Build :=
  have hs : ∀ k, (freshRequest.addAll [(3, 1446455471), (1, 1446455400)]).message.lookup? k
      = (freshRequest.addAll [(1, 1446455400), (3, 1446455471)]).message.lookup? k :=
    fun k => GoMap.lookup?_perm (by decide) (by decide) k
  ⟨by decide, hs,
    canonical_ordering freshRequest [(3, 1446455471), (1, 1446455400)]
      [(1, 1446455400), (3, 1446455471)] [(3, 1446455471), (1, 1446455400)]
      [(1, 1446455400), (3, 1446455471)] [] (by decide) (by decide) (by decide) hs⟩

/-! ## Layout of the privilege map -/

theorem recordBytes_canonical {m : GoMap} (hm : m.WF) :
    recordBytes m m.sortedKeys = m.canonical.flatMap (fun p => le16 p.1 ++ le32 p.2) := by
  have hk : ∀ k ∈ m.sortedKeys, k % 65536 = k := fun k hk =>
    Nat.mod_eq_of_lt (GoMap.key_lt hm ((sortedKeys_perm m).mem_iff.1 hk))
  simp only [recordBytes, GoMap.canonical, List.flatMap_def, List.map_map]
  congr 1
  apply List.map_congr_left
  intro k h
  simp [hk k h]

/-- C3: for a well-formed privilege map with `n < 65536` entries, `packMapUint32` appends
exactly `2 + 6n` bytes: the count `n` on 16 bits little-endian, then one record per
entry (key on 16 bits, expiration on 32 bits, both little-endian); the records are the
entries of the map, each exactly once, in strictly ascending key order. -/
theorem packMapUint32_layout (m : GoMap) (hm : m.WF) (hn : m.length < 65536) (w : Bytes) :
    ∃ records : GoMap, records.Perm m ∧ records.keys.Sorted (· < ·) ∧
      packMapUint32 w m
        = .ok (w ++ (le16 m.length ++ records.flatMap (fun p => le16 p.1 ++ le32 p.2))) ∧
      (le16 m.length ++ records.flatMap (fun p => le16 p.1 ++ le32 p.2)).length
        = 2 + 6 * m.length := by
  have hb : mapBytes m = le16 m.length ++ m.canonical.flatMap (fun p => le16 p.1 ++ le32 p.2) := by
    rw [mapBytes, recordBytes_canonical hm, Nat.mod_eq_of_lt hn]
  refine ⟨m.canonical, GoMap.canonical_perm hm.1, ?_, ?_, ?_⟩
  · rw [GoMap.canonical_keys]
    exact (sortedKeys_sorted m).lt_of_le ((sortedKeys_perm m).nodup_iff.2 hm.1)
  · rw [packMapUint32_eq, hb]
  · rw [← hb, mapBytes_length]

theorem packMapUint32_layout_witness :
    GoMap.WF [(3, 1446455471), (1, 1446455400)] ∧
    ∃ records : GoMap, records.Perm [(3, 1446455471), (1, 1446455400)] ∧
      records.keys.Sorted (· < ·) ∧
      packMapUint32 [7] [(3, 1446455471), (1, 1446455400)]
        = .ok ([7] ++ (le16 2 ++ records.flatMap (fun p => le16 p.1 ++ le32 p.2))) ∧
      (le16 2 ++ records.flatMap (fun p => le16 p.1 ++ le32 p.2)).length = 2 + 6 * 2 :=
  ⟨by decide, packMapUint32_layout [(3, 1446455471), (1, 1446455400)] (by decide) (by decide) [7]⟩

/-! ## Version check -/

/-- C4: a token string that has a first three characters and whose first three
characters are not `006` is rejected with the version error and no token, whatever
follows them (also when fewer than 32 characters follow, or no valid base64). -/
theorem version_rejection (originToken : Bytes) (hlen : 3 ≤ originToken.length)
    (hv : originToken.take 3 ≠ ascii "006") :
    NewAccessTokenFromString originToken = .error .versionMismatch := by
  unfold NewAccessTokenFromString
  rw [if_neg (by simp only [VersionLength]; omega)]
  simp only [VersionLength, dk6version]
  rw [if_pos hv]

theorem version_rejection_witness :
    3 ≤ otherVersionToken.length ∧ otherVersionToken.take 3 ≠ ascii "006" ∧
      NewAccessTokenFromString otherVersionToken = .error .versionMismatch :=
  ⟨by decide, by decide, version_rejection otherVersionToken (by decide) (by decide)⟩

/-! ## Short reads -/

/-- C5 (the code at the failing inputs): `unPackString` returns a zero-padded string and
no error when the length field exceeds the bytes left, although the fixed-width reads
report the same situation as an error; `unPackContent` and `NewAccessTokenFromString`
then accept a content block whose message length field exceeds the bytes available, and
the parse yields a token with salt 0, ts 0 and an empty privilege map, all read from
padding. -/
theorem unPackString_short_read_accepted :
    unPackString truncatedString = .ok ([65, 0, 0, 0, 0], []) ∧
    unPackUint32 [65] = .error .unexpectedEOF ∧
    unPackContent truncatedContent = .ok ([], 0, 0, List.replicate 10 0) ∧
    b64Decode (truncatedToken.drop 35) = .ok truncatedContent ∧
    NewAccessTokenFromString truncatedToken
      = .ok ⟨List.replicate 32 48, [], [], [], 0, 0, [], [], 0, 0, List.replicate 10 0⟩ := by
  exact ⟨rfl, rfl, rfl, rfl, by decide⟩

/-! ## Token builders -/

theorem unixUint32_lt (t : Int) : unixUint32 t < 4294967296 := by
  unfold unixUint32; omega

theorem unixUint32_of_range (t : Int) (h0 : 0 ≤ t) (h1 : t < 4294967296) :
    (unixUint32 t : Int) = t := by
  unfold unixUint32; omega

theorem unixUint32_natCast (n : Nat) (h : n < 4294967296) : unixUint32 (n : Int) = n := by
  unfold unixUint32; omega

theorem BuildRTCTokenWithUserAccount_eq (appID appCertificate channelName userAccount : Bytes)
    (role : Nat) (t : Int) (now : Int) (rnd : Nat) :
    BuildRTCTokenWithUserAccount appID appCertificate channelName userAccount role t now rnd
      = .ok (rtcRequest appID appCertificate channelName userAccount role t now rnd).tokenString := by
  rw [← Build_eq]; rfl

theorem BuildRTMToken_eq (appID appCertificate userAccount : Bytes) (t : Int) (now : Int)
    (rnd : Nat) :
    BuildRTMToken appID appCertificate userAccount t now rnd
      = .ok (rtmRequest appID appCertificate userAccount t now rnd).tokenString := by
  rw [← Build_eq]; rfl

theorem rtcRequest_canonical (appID appCertificate channelName userAccount : Bytes)
    (role : Nat) (t : Int) (now : Int) (rnd : Nat) :
    (rtcRequest appID appCertificate channelName userAccount role t now rnd).message.canonical
      = rtcPrivileges role (unixUint32 t) := by
  unfold rtcRequest rtcPrivileges
  by_cases h : role = RoleAttendee ∨ role = RolePublisher ∨ role = RoleAdmin
  · simp only [if_pos h]; rfl
  · simp only [if_neg h]; rfl

theorem rtcRequest_message (appID appCertificate channelName userAccount : Bytes)
    (role : Nat) (t : Int) (now : Int) (rnd : Nat) :
    (rtcRequest appID appCertificate channelName userAccount role t now rnd).message
      = if role = RoleAttendee ∨ role = RolePublisher ∨ role = RoleAdmin then
          [(1, unixUint32 t), (3, unixUint32 t), (2, unixUint32 t), (4, unixUint32 t)]
        else [(1, unixUint32 t)] := by
  unfold rtcRequest
  split <;> rfl

theorem rtcRequest_WF (appID appCertificate channelName userAccount : Bytes)
    (role : Nat) (t : Int) (now : Int) (rnd : Nat) :
    (rtcRequest appID appCertificate channelName userAccount role t now rnd).WF ∧
    (rtcRequest appID appCertificate channelName userAccount role t now rnd).message.length
      ≤ 10920 := by
  have hu := unixUint32_lt t
  have hts : (rtcRequest appID appCertificate channelName userAccount role t now rnd).ts
      < 4294967296 := by
    unfold rtcRequest; split <;> exact Nat.mod_lt _ (by decide)
  have hsalt : (rtcRequest appID appCertificate channelName userAccount role t now rnd).salt
      < 4294967296 := by
    unfold rtcRequest; split <;> exact Nat.mod_lt _ (by decide)
  refine ⟨⟨hts, hsalt, ?_⟩, ?_⟩ <;> rw [rtcRequest_message] <;> split <;>
    simp [GoMap.WF, GoMap.keys, hu]

theorem rtc_parse (appID appCertificate channelName userAccount : Bytes)
    (role : Nat) (t : Int) (now : Int) (rnd : Nat) (h32 : appID.length = 32) :
    NewAccessTokenFromString
        (rtcRequest appID appCertificate channelName userAccount role t now rnd).tokenString
      = .ok (parsedToken (rtcRequest appID appCertificate channelName userAccount role t now rnd)
          (rtcRequest appID appCertificate channelName userAccount role t now rnd).messageBlock
          ((rtcRequest appID appCertificate channelName userAccount role t now rnd).salt,
            (rtcRequest appID appCertificate channelName userAccount role t now rnd).ts,
            rtcPrivileges role (unixUint32 t))) := by
  have hw := rtcRequest_WF appID appCertificate channelName userAccount role t now rnd
  have h32' : (rtcRequest appID appCertificate channelName userAccount role t now rnd).appID.length
      = 32 := by
    unfold rtcRequest; split <;> exact h32
  rw [parse_Build _ hw.1 h32' hw.2, rtcRequest_canonical]

/-- C6 (the code that the failing call would reach): `BuildRTCTokenWithUID` does not
type-check, so the call of the claim builds nothing. `BuildRTCTokenWithUserAccount`, the
function it is written to call, does what the claim describes when it is handed the
expiration as a time: for a 32-character appID, any user account (the empty one stands
for uid 0), an expiration `t` with Unix seconds in `[0, 2^32)` and a role other than
attendee (0), publisher (1) and admin (101), the built token parses and the parsed
privilege map is exactly `{1 -> t}`; the key of publish-video-stream is absent and its
lookup yields 0. -/
theorem rtc_other_role_join_only (appID appCertificate channelName userAccount : Bytes)
    (role : Nat) (t : Int) (now : Int) (rnd : Nat) (h32 : appID.length = 32)
    (h0 : 0 ≤ t) (h1 : t < 4294967296)
    (hrole : role ≠ RoleAttendee ∧ role ≠ RolePublisher ∧ role ≠ RoleAdmin) :
    ∃ s parsed,
      BuildRTCTokenWithUserAccount appID appCertificate channelName userAccount role t now rnd
        = .ok s ∧
      NewAccessTokenFromString s = .ok parsed ∧
      parsed.message = [(PrivilegeJoinChannel, t.toNat)] ∧
      parsed.message.get PrivilegeJoinChannel = t.toNat ∧
      parsed.message.lookup? PrivilegePublishVideoStream = none ∧
      parsed.message.get PrivilegePublishVideoStream = 0 := by
  have hu : unixUint32 t = t.toNat := by
    have := unixUint32_of_range t h0 h1
    omega
  have hp : rtcPrivileges role (unixUint32 t) = [(PrivilegeJoinChannel, t.toNat)] := by
    unfold rtcPrivileges
    rw [if_neg (by
      rintro (h | h | h)
      · exact hrole.1 h
      · exact hrole.2.1 h
      · exact hrole.2.2 h), hu]
  refine ⟨_, _, BuildRTCTokenWithUserAccount_eq _ _ _ _ _ _ _ _,
    rtc_parse _ _ _ _ _ _ _ _ h32, ?_, ?_, ?_, ?_⟩
  · exact hp
  · show GoMap.get (rtcPrivileges role (unixUint32 t)) PrivilegeJoinChannel = t.toNat
    rw [hp]; rfl
  · show GoMap.lookup? (rtcPrivileges role (unixUint32 t)) PrivilegePublishVideoStream = none
    rw [hp]; rfl
  · show GoMap.get (rtcPrivileges role (unixUint32 t)) PrivilegePublishVideoStream = 0
    rw [hp]; rfl

theorem rtc_other_role_join_only_witness :
    (ascii "970CA35de60c44645bbae8a215061b33").length = 32 ∧ (0 : Int) ≤ 1446455471 ∧
    (1446455471 : Int) < 4294967296 ∧
    (2 ≠ RoleAttendee ∧ 2 ≠ RolePublisher ∧ 2 ≠ RoleAdmin) ∧
    ∃ s parsed, BuildRTCTokenWithUserAccount (ascii "970CA35de60c44645bbae8a215061b33")
        (ascii "5CFd2fd1755d40ecb72977518be15d3b") (ascii "7d72365eb983485397e3e3f9d460bdda")
        [] 2 1446455471 1600000000 12345 = .ok s ∧
      NewAccessTokenFromString s = .ok parsed ∧
      parsed.message = [(PrivilegeJoinChannel, 1446455471)] ∧
      parsed.message.get PrivilegeJoinChannel = 1446455471 ∧
      parsed.message.lookup? PrivilegePublishVideoStream = none ∧
      parsed.message.get PrivilegePublishVideoStream = 0 :=
  ⟨by decide, by decide, by decide, by decide,
    rtc_other_role_join_only _ _ _ [] 2 1446455471 1600000000 12345 (by decide) (by decide)
      (by decide) (by decide)⟩

/-- C7, as stated, fails: for the attendee role (0) the built token holds the three
publish grants. -/
theorem rtc_attendee_receives_publish_grants :
    ∃ s parsed, BuildRTCTokenWithUserAccount (List.replicate 32 48) [115] [99] [117]
        RoleAttendee 1446455471 1600000000 12345 = .ok s ∧
      NewAccessTokenFromString s = .ok parsed ∧
      parsed.message.lookup? PrivilegePublishAudioStream = some 1446455471 ∧
      parsed.message.lookup? PrivilegePublishVideoStream = some 1446455471 ∧
      parsed.message.lookup? PrivilegePublishDataStream = some 1446455471 :=
  ⟨_, _, BuildRTCTokenWithUserAccount_eq _ _ _ _ _ _ _ _,
    rtc_parse _ _ _ _ _ _ _ _ (by decide), by decide, by decide, by decide⟩

/-- C7 (amended): for every role value (and 32-character appID) the token built by
`BuildRTCTokenWithUserAccount` parses and contains join-channel (1) with the 32-bit Unix
seconds of the given expiration; it contains publish-audio (2), publish-video (3) and
publish-data-stream (4), each with that expiration, if the role is attendee (0),
publisher (1) or admin (101), and none of the three keys for any other role. -/
theorem rtc_grants_by_role (appID appCertificate channelName userAccount : Bytes) (role : Nat)
    (t : Int) (now : Int) (rnd : Nat) (h32 : appID.length = 32) :
    ∃ s parsed,
      BuildRTCTokenWithUserAccount appID appCertificate channelName userAccount role t now rnd
        = .ok s ∧
      NewAccessTokenFromString s = .ok parsed ∧
      parsed.message.lookup? PrivilegeJoinChannel = some (unixUint32 t) ∧
      ∀ k, k = PrivilegePublishAudioStream ∨ k = PrivilegePublishVideoStream ∨
          k = PrivilegePublishDataStream →
        parsed.message.lookup? k =
          if role = RoleAttendee ∨ role = RolePublisher ∨ role = RoleAdmin then
            some (unixUint32 t)
          else none := by
  refine ⟨_, _, BuildRTCTokenWithUserAccount_eq _ _ _ _ _ _ _ _,
    rtc_parse _ _ _ _ _ _ _ _ h32, ?_, ?_⟩
  · show GoMap.lookup? (rtcPrivileges role (unixUint32 t)) PrivilegeJoinChannel = _
    unfold rtcPrivileges; split <;> rfl
  · intro k hk
    show GoMap.lookup? (rtcPrivileges role (unixUint32 t)) k = _
    unfold rtcPrivileges
    rcases hk with h | h | h <;> subst h <;> split <;> rfl

theorem rtc_grants_by_role_witness :
    (List.replicate 32 48).length = 32 ∧
    ∃ s parsed,
      BuildRTCTokenWithUserAccount (List.replicate 32 48) [115] [99] [117] 2 1446455471
        1600000000 12345 = .ok s ∧
      NewAccessTokenFromString s = .ok parsed ∧
      parsed.message.lookup? PrivilegeJoinChannel = some (unixUint32 1446455471) ∧
      ∀ k, k = PrivilegePublishAudioStream ∨ k = PrivilegePublishVideoStream ∨
          k = PrivilegePublishDataStream →
        parsed.message.lookup? k =
          if 2 = RoleAttendee ∨ 2 = RolePublisher ∨ 2 = RoleAdmin then
            some (unixUint32 1446455471)
          else none :=
  ⟨by decide, rtc_grants_by_role (List.replicate 32 48) [115] [99] [117] 2 1446455471
    1600000000 12345 (by decide)⟩

theorem rtmRequest_WF (appID appCertificate userAccount : Bytes) (t : Int) (now : Int)
    (rnd : Nat) :
    (rtmRequest appID appCertificate userAccount t now rnd).WF ∧
    (rtmRequest appID appCertificate userAccount t now rnd).message.length ≤ 10920 := by
  have hu := unixUint32_lt t
  refine ⟨⟨Nat.mod_lt _ (by decide), Nat.mod_lt _ (by decide), ?_⟩, ?_⟩
  · show GoMap.WF [(PrivilegeLoginRtm, unixUint32 t)]
    simp [GoMap.WF, GoMap.keys, hu, PrivilegeLoginRtm]
  · show [(PrivilegeLoginRtm, unixUint32 t)].length ≤ 10920
    simp

theorem rtm_parse (appID appCertificate userAccount : Bytes) (t : Int) (now : Int) (rnd : Nat)
    (h32 : appID.length = 32) :
    NewAccessTokenFromString (rtmRequest appID appCertificate userAccount t now rnd).tokenString
      = .ok (parsedToken (rtmRequest appID appCertificate userAccount t now rnd)
          (rtmRequest appID appCertificate userAccount t now rnd).messageBlock
          ((rtmRequest appID appCertificate userAccount t now rnd).salt,
            (rtmRequest appID appCertificate userAccount t now rnd).ts,
            [(PrivilegeLoginRtm, unixUint32 t)])) := by
  have hw := rtmRequest_WF appID appCertificate userAccount t now rnd
  rw [parse_Build _ hw.1 h32 hw.2]
  rfl

theorem crc32_nil : crc32 [] = 0 := by decide

/-- C8, as stated, fails: in the token that `BuildRTMToken` builds for the user account
`a`, the channel checksum is the CRC-32 of `a` (3904355907), not that of the empty
string, and the user checksum is 0, not the CRC-32 of `a`. -/
theorem rtm_checksums_swapped :
    ∃ s parsed, BuildRTMToken (List.replicate 32 48) [115] [97] 1446455471 1600000000 12345
        = .ok s ∧
      NewAccessTokenFromString s = .ok parsed ∧
      parsed.crcChannelName = 3904355907 ∧ parsed.crcChannelName ≠ crc32 [] ∧
      parsed.crcUid = 0 ∧ parsed.crcUid ≠ crc32 [97] :=
  ⟨_, _, BuildRTMToken_eq _ _ _ _ _ _, rtm_parse _ _ _ _ _ _ (by decide),
    by decide, by decide, by decide, by decide⟩

/-- C8 (amended): for every appID, secret, userAccount and expiration, the token built by
`BuildRTMToken` has userAccount as its channel scope and an empty user scope. With
`M` the message block (salt, ts, one record `1000 -> expiration`), the token is
`006 ++ appID ++ base64 (content)`, where the signature in `content` is the HMAC-SHA256
of `appID ++ userAccount ++ "" ++ M`, the channel checksum is the CRC-32 of userAccount
and the user checksum is the CRC-32 of the empty string, which is 0; when the appID has
32 characters, parsing the token returns exactly these values. -/
theorem rtm_token_scopes (appID appCertificate userAccount : Bytes) (t : Int) (now : Int)
    (rnd : Nat) :
    ∃ s M sig, M = le32 ((rnd + 1) % 4294967296)
          ++ le32 ((unixUint32 now + 24 * 3600) % 4294967296)
          ++ (le16 1 ++ (le16 1000 ++ le32 (unixUint32 t))) ∧
      sig = hmacSha256 appCertificate (appID ++ userAccount ++ [] ++ M) ∧
      BuildRTMToken appID appCertificate userAccount t now rnd = .ok s ∧
      s = ascii "006" ++ appID ++ b64Encode (le16 32 ++ sig ++ le32 (crc32 userAccount)
            ++ le32 (crc32 []) ++ le16 16 ++ M) ∧
      crc32 [] = 0 ∧
      (appID.length = 32 → ∃ parsed, NewAccessTokenFromString s = .ok parsed ∧
        parsed.signature = sig ∧ parsed.crcChannelName = crc32 userAccount ∧
        parsed.crcUid = 0 ∧ parsed.msgRawContent = M) := by
  have hM : (rtmRequest appID appCertificate userAccount t now rnd).messageBlock
      = le32 ((rnd + 1) % 4294967296) ++ le32 ((unixUint32 now + 24 * 3600) % 4294967296)
          ++ (le16 1 ++ (le16 1000 ++ le32 (unixUint32 t))) := rfl
  have hsig : (rtmRequest appID appCertificate userAccount t now rnd).signatureBytes
      = hmacSha256 appCertificate (appID ++ userAccount ++ []
          ++ (rtmRequest appID appCertificate userAccount t now rnd).messageBlock) := rfl
  refine ⟨_, _, _, rfl, rfl, BuildRTMToken_eq _ _ _ _ _ _, ?_, crc32_nil, ?_⟩
  · have hl : (rtmRequest appID appCertificate userAccount t now rnd).signatureBytes.length
        = 32 := hmacSha256_length _ _
    rw [AccessToken.tokenString, AccessToken.contentBlock, hl, hsig, hM]
    rfl
  · intro h32
    exact ⟨_, rtm_parse _ _ _ _ _ _ h32, by rw [← hM]; rfl, rfl, crc32_nil, hM⟩

theorem rtm_token_scopes_witness :
    (List.replicate 32 48).length = 32 ∧
    ∃ s parsed, BuildRTMToken (List.replicate 32 48) [115] [97] 1446455471 1600000000 12345
        = .ok s ∧
      NewAccessTokenFromString s = .ok parsed ∧
      parsed.signature = hmacSha256 [115] (List.replicate 32 48 ++ [97] ++ []
        ++ parsed.msgRawContent) ∧
      parsed.crcChannelName = crc32 [97] ∧ parsed.crcUid = 0 := by
  obtain ⟨s, M, sig, _, hsig, hb, _, _, hp⟩ :=
    rtm_token_scopes (List.replicate 32 48) [115] [97] 1446455471 1600000000 12345
  obtain ⟨parsed, h1, h2, h3, h4, h5⟩ := hp (by decide)
  exact ⟨by decide, s, parsed, hb, h1, by rw [h2, h5, hsig], h3, h4⟩

/-- C9: for a 32-character appID and an expiration `t` with Unix seconds in `[0, 2^32)`,
the token built by `BuildRTMToken` parses, and the parsed privilege map is exactly
`{1000 -> t}`: login-messaging maps to `t` and no other key is present. -/
theorem rtm_grants_login_only (appID appCertificate userAccount : Bytes) (t : Int) (now : Int)
    (rnd : Nat) (h32 : appID.length = 32) (h0 : 0 ≤ t) (h1 : t < 4294967296) :
    ∃ s parsed, BuildRTMToken appID appCertificate userAccount t now rnd = .ok s ∧
      NewAccessTokenFromString s = .ok parsed ∧
      parsed.message = [(PrivilegeLoginRtm, t.toNat)] ∧
      parsed.message.lookup? PrivilegeLoginRtm = some t.toNat ∧
      ∀ k, k ≠ PrivilegeLoginRtm → parsed.message.lookup? k = none := by
  have hu : unixUint32 t = t.toNat := by
    have := unixUint32_of_range t h0 h1
    omega
  refine ⟨_, _, BuildRTMToken_eq _ _ _ _ _ _, rtm_parse _ _ _ _ _ _ h32, ?_, ?_, ?_⟩
  · show [(PrivilegeLoginRtm, unixUint32 t)] = _
    rw [hu]
  · show GoMap.lookup? [(PrivilegeLoginRtm, unixUint32 t)] PrivilegeLoginRtm = _
    rw [hu]; simp [GoMap.lookup?]
  · intro k hk
    show GoMap.lookup? [(PrivilegeLoginRtm, unixUint32 t)] k = none
    simp [GoMap.lookup?, Ne.symm hk]

theorem rtm_grants_login_only_witness :
    (List.replicate 32 48).length = 32 ∧ (0 : Int) ≤ 1446455471 ∧
    (1446455471 : Int) < 4294967296 ∧
    ∃ s parsed, BuildRTMToken (List.replicate 32 48) [115] [97] 1446455471 1600000000 12345
        = .ok s ∧
      NewAccessTokenFromString s = .ok parsed ∧
      parsed.message = [(PrivilegeLoginRtm, (1446455471 : Int).toNat)] ∧
      parsed.message.lookup? PrivilegeLoginRtm = some (1446455471 : Int).toNat ∧
      ∀ k, k ≠ PrivilegeLoginRtm → parsed.message.lookup? k = none :=
  ⟨by decide, by decide, by decide,
    rtm_grants_login_only (List.replicate 32 48) [115] [97] 1446455471 1600000000 12345
      (by decide) (by decide) (by decide)⟩

/-! ## Integer uids -/

theorem newAccessToken_parse (appID appCertificate channelName : Bytes) (now : Int) (rnd : Nat)
    (h32 : appID.length = 32) :
    NewAccessTokenFromString (NewAccessToken appID appCertificate channelName 0 now rnd).tokenString
      = .ok (parsedToken (NewAccessToken appID appCertificate channelName 0 now rnd)
          (NewAccessToken appID appCertificate channelName 0 now rnd).messageBlock
          ((NewAccessToken appID appCertificate channelName 0 now rnd).salt,
            (NewAccessToken appID appCertificate channelName 0 now rnd).ts, [])) := by
  have hw : (NewAccessToken appID appCertificate channelName 0 now rnd).WF :=
    ⟨Nat.mod_lt _ (by decide), Nat.mod_lt _ (by decide), by
      show GoMap.WF []
      simp [GoMap.WF, GoMap.keys]⟩
  rw [parse_Build _ hw h32 (Nat.zero_le _)]
  rfl

theorem rtcRequest_uidStr (appID appCertificate channelName userAccount : Bytes)
    (role : Nat) (t : Int) (now : Int) (rnd : Nat) :
    (rtcRequest appID appCertificate channelName userAccount role t now rnd).uidStr
      = userAccount := by
  unfold rtcRequest
  split <;> rfl

theorem digitChar_toNat : ∀ k < 10, (Nat.digitChar k).toNat = 48 + k := by decide

theorem toDigitsCore_decimal (fuel : Nat) :
    ∀ (n : Nat) (ds : List Char), n < fuel →
      ∃ pre : List Char, Nat.toDigitsCore 10 fuel n ds = pre ++ ds ∧ pre ≠ [] ∧
        (∀ c ∈ pre.map Char.toNat, 48 ≤ c ∧ c ≤ 57) ∧
        decimalValue (pre.map Char.toNat) = n ∧
        (0 < n → (pre.map Char.toNat).head? ≠ some 48) := by
  induction fuel with
  | zero => intro n ds h; omega
  | succ fuel ih =>
    intro n ds hn
    have hd := digitChar_toNat (n % 10) (Nat.mod_lt _ (by decide))
    by_cases h : n / 10 = 0
    · refine ⟨[Nat.digitChar (n % 10)], by simp [Nat.toDigitsCore, h], by simp, ?_, ?_, ?_⟩
      · intro c hc
        simp only [List.map_cons, List.map_nil, List.mem_singleton] at hc
        subst hc; omega
      · simp only [decimalValue, List.map_cons, List.map_nil, List.foldl_cons, List.foldl_nil, hd]
        omega
      · intro hpos
        simp only [List.map_cons, List.map_nil, List.head?_cons, ne_eq, Option.some.injEq, hd]
        omega
    · obtain ⟨pre, h1, h2, h3, h4, h5⟩ := ih (n / 10) (Nat.digitChar (n % 10) :: ds) (by omega)
      refine ⟨pre ++ [Nat.digitChar (n % 10)], by simp [Nat.toDigitsCore, h, h1], by simp,
        ?_, ?_, ?_⟩
      · intro c hc
        simp only [List.map_append, List.map_cons, List.map_nil, List.mem_append,
          List.mem_singleton] at hc
        rcases hc with hc | hc
        · exact h3 c hc
        · subst hc; omega
      · simp only [decimalValue] at h4
        simp only [decimalValue, List.map_append, List.map_cons, List.map_nil, List.foldl_append,
          List.foldl_cons, List.foldl_nil, h4, hd]
        omega
      · intro _
        have hne : pre.map Char.toNat ≠ [] := by simpa using h2
        rw [List.map_append, List.head?_append_of_ne_nil _ hne]
        exact h5 (by omega)

theorem decimal_isDecimalOf (n : Nat) (hn : 0 < n) : IsDecimalOf n (decimal n) := by
  obtain ⟨pre, h1, h2, h3, h4, h5⟩ := toDigitsCore_decimal (n + 1) n [] (Nat.lt_succ_self n)
  have hd : decimal n = pre.map Char.toNat := by
    rw [decimal, Nat.toDigits, h1, List.append_nil]
  rw [hd]
  exact ⟨by simpa using h2, h3, h5 hn, h4⟩

/-- C10 (the code that type-checks): `NewAccessToken` is `NewAccessTokenStrUID` at the
user string that the specification assigns to the uid, the empty string for 0 and
otherwise the decimal representation of the uid (ASCII digits, no leading zero, writing
the number uid), and the first statements of `BuildRTCTokenWithUID` compute this same
string; for uid 2882341273 it is the ten characters `2882341273`. For uid 0 and a
32-character appID the token built from `NewAccessToken` parses with a user checksum
equal to the CRC-32 of the empty string, which is 0. The call that ends
`BuildRTCTokenWithUID` does not type-check, so the function itself builds nothing. -/
theorem integer_uid_mapping (appID appCertificate channelName : Bytes) (uid : Nat)
    (now : Int) (rnd : Nat) :
    (∃ s, IsUserScopeOf uid s ∧
      NewAccessToken appID appCertificate channelName uid now rnd
        = NewAccessTokenStrUID appID appCertificate channelName s now rnd ∧
      BuildRTCTokenWithUID_uidStr uid = s) ∧
    (NewAccessToken appID appCertificate channelName 2882341273 now rnd).uidStr
      = ascii "2882341273" ∧
    BuildRTCTokenWithUID_uidStr 2882341273 = ascii "2882341273" ∧
    (uid = 0 → appID.length = 32 →
      ∃ s parsed, (NewAccessToken appID appCertificate channelName uid now rnd).Build = .ok s ∧
        NewAccessTokenFromString s = .ok parsed ∧
        parsed.crcUid = crc32 [] ∧ parsed.crcUid = 0) := by
  have hdec : decimal 2882341273 = ascii "2882341273" := by decide
  refine ⟨?_, ?_, by decide, ?_⟩
  · by_cases hu : uid = 0
    · subst hu
      exact ⟨[], by simp [IsUserScopeOf], rfl, rfl⟩
    · refine ⟨decimal uid, ?_, ?_, ?_⟩
      · rw [IsUserScopeOf, if_neg hu]
        exact decimal_isDecimalOf uid (Nat.pos_of_ne_zero hu)
      · rw [NewAccessToken, if_neg hu]
      · rw [BuildRTCTokenWithUID_uidStr]
        simp only [if_neg hu]
  · rw [NewAccessToken, if_neg (by decide)]
    exact hdec
  · intro hu h32
    subst hu
    exact ⟨_, _, Build_eq _, newAccessToken_parse _ _ _ _ _ h32, rfl, crc32_nil⟩

theorem integer_uid_mapping_witness :
    (List.replicate 32 48).length = 32 ∧
    (∃ s, IsUserScopeOf 4294967295 s ∧
      NewAccessToken (List.replicate 32 48) [115] [99] 4294967295 1600000000 12345
        = NewAccessTokenStrUID (List.replicate 32 48) [115] [99] s 1600000000 12345 ∧
      BuildRTCTokenWithUID_uidStr 4294967295 = s) ∧
    IsUserScopeOf 4294967295 (ascii "4294967295") ∧
    (∃ s parsed, (NewAccessToken (List.replicate 32 48) [115] [99] 0 1600000000 12345).Build
          = .ok s ∧
        NewAccessTokenFromString s = .ok parsed ∧
        parsed.crcUid = crc32 [] ∧ parsed.crcUid = 0) :=
  ⟨by decide,
    (integer_uid_mapping (List.replicate 32 48) [115] [99] 4294967295 1600000000 12345).1,
    by decide,
    (integer_uid_mapping (List.replicate 32 48) [115] [99] 0 1600000000 12345).2.2.2 rfl
      (by decide)⟩

/-! ## Wire format of a built token -/

theorem le16_mod (n : Nat) : le16 (n % 65536) = le16 n := by
  simp only [le16]
  congr 1
  · omega
  · congr 1; omega

/-- C11: for every request, `Build` returns without error the string
`006 ++ appID ++ base64 (content)`, with
`content = le16 (len sig) ++ sig ++ le32 (crc32 channelName) ++ le32 (crc32 uidStr)
++ le16 (len M) ++ M`, `M = le32 salt ++ le32 ts ++` the bytes written by `packMapUint32`,
and `sig` the HMAC-SHA256 of `appID ++ channelName ++ uidStr ++ M` under the key
`appCertificate`. The integers are little-endian (low byte first), and the base64 is the
standard alphabet with `=` padding (checked on bytes that use `+`, `/` and padding). -/
theorem Build_wire_format (token : AccessToken) :
    ∃ mapOut M sig content : Bytes,
      packMapUint32 [] token.message = .ok mapOut ∧
      M = le32 token.salt ++ le32 token.ts ++ mapOut ∧
      sig = hmacSha256 token.appCertificate
        (token.appID ++ token.channelName ++ token.uidStr ++ M) ∧
      content = le16 sig.length ++ sig ++ le32 (crc32 token.channelName)
        ++ le32 (crc32 token.uidStr) ++ le16 M.length ++ M ∧
      token.Build = .ok (ascii "006" ++ token.appID ++ b64Encode content) ∧
      (∀ n, le16 n = [n % 256, n / 256 % 256]) ∧
      (∀ n, le32 n = [n % 256, n / 256 % 256, n / 65536 % 256, n / 16777216 % 256]) ∧
      b64Encode [251, 255] = ascii "+/8=" ∧
      b64Encode [0, 16, 131, 16, 81, 135, 32, 146, 139] = ascii "ABCDEFGHIJKL" := by
  refine ⟨mapBytes token.message, token.messageBlock, token.signatureBytes, token.contentBlock,
    ?_, rfl, rfl, ?_, Build_eq token, fun _ => rfl, fun _ => rfl, by decide, by decide⟩
  · rw [packMapUint32_eq, List.nil_append]
  · rw [AccessToken.contentBlock, le16_mod, le16_mod]

/-! ## Adding privileges -/

theorem GoMap.lookup?_set (m : GoMap) (k v k' : Nat) :
    (m.set k v).lookup? k' = if k = k' then some v else m.lookup? k' := by
  induction m with
  | nil => simp [GoMap.set, GoMap.lookup?]
  | cons p m ih =>
    obtain ⟨k₀, v₀⟩ := p
    by_cases h : k₀ = k
    · subst h
      simp only [GoMap.set, if_true, GoMap.lookup?]
      split <;> rfl
    · simp only [GoMap.set, if_neg h, GoMap.lookup?, ih]
      by_cases h' : k₀ = k'
      · subst h'
        simp [Ne.symm h]
      · simp [h']

theorem GoMap.set_set (m : GoMap) (k v₁ v₂ : Nat) : (m.set k v₁).set k v₂ = m.set k v₂ := by
  induction m with
  | nil => simp [GoMap.set]
  | cons p m ih =>
    obtain ⟨k₀, v₀⟩ := p
    by_cases h : k₀ = k
    · subst h; simp [GoMap.set]
    · simp [GoMap.set, h, ih]

/-- C17: after `AddPrivilege k t` the lookup of `k` yields the 32-bit Unix seconds of `t`,
whatever was stored for `k` before; the lookup of every other kind is unchanged; appID,
appCertificate, channelName, uidStr, salt and ts are unchanged; and `AddPrivilege k t₁`
followed by `AddPrivilege k t₂` leaves the same request as `AddPrivilege k t₂` alone. -/
theorem AddPrivilege_overwrites_and_frames (token : AccessToken) (k : Nat) (t t₁ t₂ : Int) :
    (token.AddPrivilege k t).message.lookup? k = some (unixUint32 t) ∧
    (token.AddPrivilege k t).message.get k = unixUint32 t ∧
    (∀ k', k' ≠ k → (token.AddPrivilege k t).message.lookup? k' = token.message.lookup? k' ∧
      (token.AddPrivilege k t).message.get k' = token.message.get k') ∧
    (token.AddPrivilege k t).appID = token.appID ∧
    (token.AddPrivilege k t).appCertificate = token.appCertificate ∧
    (token.AddPrivilege k t).channelName = token.channelName ∧
    (token.AddPrivilege k t).uidStr = token.uidStr ∧
    (token.AddPrivilege k t).salt = token.salt ∧
    (token.AddPrivilege k t).ts = token.ts ∧
    (token.AddPrivilege k t₁).AddPrivilege k t₂ = token.AddPrivilege k t₂ := by
  have h1 : (token.AddPrivilege k t).message.lookup? k = some (unixUint32 t) := by
    simp [AccessToken.AddPrivilege, GoMap.lookup?_set]
  refine ⟨h1, by simp [GoMap.get, h1], ?_, rfl, rfl, rfl, rfl, rfl, rfl, ?_⟩
  · intro k' hk
    have h2 : (token.AddPrivilege k t).message.lookup? k' = token.message.lookup? k' := by
      simp [AccessToken.AddPrivilege, GoMap.lookup?_set, Ne.symm hk]
    exact ⟨h2, by simp [GoMap.get, h2]⟩
  · simp [AccessToken.AddPrivilege, GoMap.set_set]

theorem AddPrivilege_overwrites_and_frames_witness :
    (3 : Nat) ≠ 1 ∧
    (smallRequest.AddPrivilege 1 1700000000).message.lookup? 1 = some 1700000000 ∧
    (smallRequest.AddPrivilege 1 1700000000).message.lookup? 3 = smallRequest.message.lookup? 3 ∧
    (smallRequest.AddPrivilege 1 5).AddPrivilege 1 7 = smallRequest.AddPrivilege 1 7 :=
  have h := AddPrivilege_overwrites_and_frames smallRequest 1 1700000000 5 7
  ⟨by decide, h.1, (h.2.2.1 3 (by decide)).1, h.2.2.2.2.2.2.2.2.2⟩

theorem GoMap.WF_set {m : GoMap} (hm : m.WF) {k v : Nat} (hk : k < 65536)
    (hv : v < 4294967296) : (m.set k v).WF := by
  refine ⟨GoMap.nodup_set hm.1 k v, ?_⟩
  induction m with
  | nil =>
    intro p hp
    simp only [GoMap.set, List.mem_singleton] at hp
    subst hp; exact ⟨hk, hv⟩
  | cons q m ih =>
    obtain ⟨k₀, v₀⟩ := q
    have hm' : GoMap.WF m :=
      ⟨(List.nodup_cons.1 hm.1).2, fun p hp => hm.2 p (List.mem_cons_of_mem _ hp)⟩
    intro p hp
    by_cases h : k₀ = k
    · simp only [GoMap.set, if_pos h, List.mem_cons] at hp
      rcases hp with hp | hp
      · subst hp; exact ⟨hk, hv⟩
      · exact hm.2 p (List.mem_cons_of_mem _ hp)
    · simp only [GoMap.set, if_neg h, List.mem_cons] at hp
      rcases hp with hp | hp
      · subst hp; exact hm.2 _ (List.mem_cons_self _ _)
      · exact ih hm' p hp

theorem GoMap.length_set_le (m : GoMap) (k v : Nat) : (m.set k v).length ≤ m.length + 1 := by
  induction m with
  | nil => simp [GoMap.set]
  | cons q m ih =>
    obtain ⟨k₀, v₀⟩ := q
    by_cases h : k₀ = k
    · simp [GoMap.set, h]
    · simp only [GoMap.set, if_neg h, List.length_cons]; omega

theorem GoMap.lookup?_canonical {m : GoMap} (hm : m.keys.Nodup) (k : Nat) :
    m.canonical.lookup? k = m.lookup? k :=
  (GoMap.lookup?_perm (GoMap.canonical_perm hm).symm hm k).symm

/-- C20: `AddPrivilege` stores the Unix seconds of the expiration reduced modulo `2^32`.
The stored value, which is also the value parsed back from the built token, equals the
requested Unix seconds exactly when these lie in `[0, 2^32)`. When the Unix seconds are a
multiple of `2^32` the stored value is 0, and the lookup of the kind then gives the same
result as on a request in which the kind is absent. -/
theorem expiration_truncation (token : AccessToken) (k : Nat) (t : Int) :
    (token.AddPrivilege k t).message.lookup? k = some (t % 4294967296).toNat ∧
    ((((token.AddPrivilege k t).message.get k : Nat) : Int) = t ↔ 0 ≤ t ∧ t < 4294967296) ∧
    (t % 4294967296 = 0 → (token.AddPrivilege k t).message.get k = 0 ∧
      (token.message.lookup? k = none →
        (token.AddPrivilege k t).message.get k = token.message.get k)) ∧
    (token.WF → token.appID.length = 32 → k < 65536 → token.message.length < 10920 →
      ∃ s parsed, (token.AddPrivilege k t).Build = .ok s ∧
        NewAccessTokenFromString s = .ok parsed ∧
        parsed.message.get k = (t % 4294967296).toNat) := by
  have h1 : (token.AddPrivilege k t).message.lookup? k = some (t % 4294967296).toNat := by
    simp [AccessToken.AddPrivilege, GoMap.lookup?_set, unixUint32]
  have h2 : (token.AddPrivilege k t).message.get k = (t % 4294967296).toNat := by
    simp [GoMap.get, h1]
  refine ⟨h1, ?_, ?_, ?_⟩
  · rw [h2]; omega
  · intro h0
    refine ⟨by rw [h2, h0]; rfl, ?_⟩
    intro hn
    rw [h2, h0]
    simp [GoMap.get, hn]
  · intro hwf h32 hk hn
    have hwf' : (token.AddPrivilege k t).WF :=
      ⟨hwf.1, hwf.2.1, GoMap.WF_set hwf.2.2 hk (unixUint32_lt t)⟩
    have hn' : (token.AddPrivilege k t).message.length ≤ 10920 := by
      have := GoMap.length_set_le token.message k (unixUint32 t)
      show (token.message.set k (unixUint32 t)).length ≤ 10920
      omega
    refine ⟨_, _, Build_eq _, parse_Build _ hwf' h32 hn', ?_⟩
    show GoMap.get (token.AddPrivilege k t).message.canonical k = _
    rw [← h2]
    simp only [GoMap.get, GoMap.lookup?_canonical hwf'.2.2.1]

theorem expiration_truncation_witness :
    (4294967296 : Int) % 4294967296 = 0 ∧ freshRequest.message.lookup? 1 = none ∧
    freshRequest.WF ∧ freshRequest.appID.length = 32 ∧ 1 < 65536 ∧
    freshRequest.message.length < 10920 ∧
    (freshRequest.AddPrivilege 1 4294967296).message.lookup? 1 = some 0 ∧
    (freshRequest.AddPrivilege 1 4294967296).message.get 1 = freshRequest.message.get 1 ∧
    ∃ s parsed, (freshRequest.AddPrivilege 1 4294967296).Build = .ok s ∧
      NewAccessTokenFromString s = .ok parsed ∧ parsed.message.get 1 = 0 :=
  have h := expiration_truncation freshRequest 1 4294967296
  ⟨by decide, by decide, by decide, by decide, by decide, by decide, h.1,
    (h.2.2.1 (by decide)).2 (by decide),
    h.2.2.2 (by decide) (by decide) (by decide) (by decide)⟩

/-! ## Deterministic signing -/

theorem messageBlock_congr {t₁ t₂ : AccessToken} (hs : t₁.salt = t₂.salt) (hts : t₁.ts = t₂.ts)
    (hn₁ : t₁.message.keys.Nodup) (hn₂ : t₂.message.keys.Nodup)
    (hm : ∀ k, t₁.message.lookup? k = t₂.message.lookup? k) :
    t₁.messageBlock = t₂.messageBlock := by
  simp only [AccessToken.messageBlock, hs, hts, mapBytes_congr hn₁ hn₂ hm]

/-- C18: two requests that agree on appID, appCertificate, channelName, uidStr, salt, ts
and on the privilege map (the same lookup for every key, whatever the iteration order)
are built to the same token string, carrying the same 32 signature bytes, namely the
HMAC-SHA256 that either request determines; the remaining fields of the request and the
order of its map are not read. `Build` returns only the string: the request is not
modified. -/
theorem deterministic_signing (t₁ t₂ : AccessToken) (ha : t₁.appID = t₂.appID)
    (hc : t₁.appCertificate = t₂.appCertificate) (hch : t₁.channelName = t₂.channelName)
    (hu : t₁.uidStr = t₂.uidStr) (hs : t₁.salt = t₂.salt) (hts : t₁.ts = t₂.ts)
    (hn₁ : t₁.message.keys.Nodup) (hn₂ : t₂.message.keys.Nodup)
    (hm : ∀ k, t₁.message.lookup? k = t₂.message.lookup? k) :
    ∃ sig rest s : Bytes,
      sig = hmacSha256 t₁.appCertificate
        (t₁.appID ++ t₁.channelName ++ t₁.uidStr ++ t₁.messageBlock) ∧
      sig = hmacSha256 t₂.appCertificate
        (t₂.appID ++ t₂.channelName ++ t₂.uidStr ++ t₂.messageBlock) ∧
      sig.length = 32 ∧
      s = ascii "006" ++ t₁.appID ++ b64Encode (le16 32 ++ sig ++ rest) ∧
      t₁.Build = .ok s ∧ t₂.Build = .ok s := by
  have hM := messageBlock_congr hs hts hn₁ hn₂ hm
  have hsig : t₁.signatureBytes = t₂.signatureBytes := by
    simp only [AccessToken.signatureBytes, ha, hc, hch, hu, hM]
  have hstr : t₂.tokenString = t₁.tokenString := by
    simp only [AccessToken.tokenString, AccessToken.contentBlock, ha, hch, hu, hM, hsig]
  have hl : t₁.signatureBytes.length = 32 := hmacSha256_length _ _
  refine ⟨t₁.signatureBytes, le32 (crc32 t₁.channelName) ++ le32 (crc32 t₁.uidStr)
      ++ le16 (t₁.messageBlock.length % 65536) ++ t₁.messageBlock, t₁.tokenString,
    rfl, hsig, hl, ?_, Build_eq t₁, by rw [Build_eq, hstr]⟩
  rw [AccessToken.tokenString, AccessToken.contentBlock, hl]
  simp only [List.append_assoc]
  rfl

theorem deterministic_signing_witness :
    smallRequest.message.keys.Nodup ∧ smallRequestReordered.message.keys.Nodup ∧
    (∀ k, smallRequest.message.lookup? k = smallRequestReordered.message.lookup? k) ∧
    ∃ sig rest s : Bytes,
      sig = hmacSha256 smallRequest.appCertificate
        (smallRequest.appID ++ smallRequest.channelName ++ smallRequest.uidStr
          ++ smallRequest.messageBlock) ∧
      sig = hmacSha256 smallRequestReordered.appCertificate
        (smallRequestReordered.appID ++ smallRequestReordered.channelName
          ++ smallRequestReordered.uidStr ++ smallRequestReordered.messageBlock) ∧
      sig.length = 32 ∧
      s = ascii "006" ++ smallRequest.appID ++ b64Encode (le16 32 ++ sig ++ rest) ∧
      smallRequest.Build = .ok s ∧ smallRequestReordered.Build = .ok s :=
  have hm : ∀ k, smallRequest.message.lookup? k = smallRequestReordered.message.lookup? k :=
    fun k => GoMap.lookup?_perm (by decide) (by decide) k
  ⟨by decide, by decide, hm,
    deterministic_signing smallRequest smallRequestReordered rfl rfl rfl rfl rfl rfl
      (by decide) (by decide) hm⟩

/-! ## Decoding any message block -/

theorem unPackRecords_ok (n : Nat) :
    ∀ (r : Bytes) (acc : GoMap), 6 * n ≤ r.length →
      unPackRecords n r acc
        = .ok ((wireRecords n r).foldl (fun a p => a.set p.1 p.2) acc) := by
  induction n with
  | zero => intro r acc _; simp [unPackRecords, wireRecords]
  | succ n ih =>
    intro r acc h
    rcases r with _ | ⟨b0, _ | ⟨b1, _ | ⟨b2, _ | ⟨b3, _ | ⟨b4, _ | ⟨b5, rest⟩⟩⟩⟩⟩⟩
    all_goals simp only [List.length_cons, List.length_nil] at h
    all_goals try omega
    have h' : 6 * n ≤ rest.length := by omega
    simp only [unPackRecords, unPackUint16, unPackUint32, bind, Except.bind, ih rest _ h',
      wireRecords, List.foldl_cons]

theorem unPackRecords_error (n : Nat) :
    ∀ (r : Bytes) (acc : GoMap), r.length < 6 * n → ∃ e, unPackRecords n r acc = .error e := by
  induction n with
  | zero => intro r acc h; omega
  | succ n ih =>
    intro r acc h
    rcases r with _ | ⟨b0, _ | ⟨b1, _ | ⟨b2, _ | ⟨b3, _ | ⟨b4, _ | ⟨b5, rest⟩⟩⟩⟩⟩⟩
    · exact ⟨_, rfl⟩
    · exact ⟨_, rfl⟩
    · exact ⟨_, rfl⟩
    · exact ⟨_, rfl⟩
    · exact ⟨_, rfl⟩
    · exact ⟨_, rfl⟩
    · simp only [List.length_cons] at h
      obtain ⟨e, he⟩ := ih rest (acc.set (b0 + 256 * b1)
        (b2 + 256 * b3 + 65536 * b4 + 16777216 * b5)) (by omega)
      exact ⟨e, by
        simp only [unPackRecords, unPackUint16, unPackUint32, bind, Except.bind, he]⟩

theorem unPackMessages_short (m : Bytes) (h : m.length < 10) :
    ∃ e, unPackMessages m = .error e := by
  rcases m with _ | ⟨s0, _ | ⟨s1, _ | ⟨s2, _ | ⟨s3, _ | ⟨t0, _ | ⟨t1, _ | ⟨t2, _ | ⟨t3,
    _ | ⟨c0, _ | ⟨c1, rest⟩⟩⟩⟩⟩⟩⟩⟩⟩⟩
  · exact ⟨_, rfl⟩
  · exact ⟨_, rfl⟩
  · exact ⟨_, rfl⟩
  · exact ⟨_, rfl⟩
  · exact ⟨_, rfl⟩
  · exact ⟨_, rfl⟩
  · exact ⟨_, rfl⟩
  · exact ⟨_, rfl⟩
  · exact ⟨_, rfl⟩
  · exact ⟨_, rfl⟩
  · simp only [List.length_cons] at h; omega

theorem unPackMessages_header (s0 s1 s2 s3 t0 t1 t2 t3 c0 c1 : Nat) (rest : Bytes) :
    unPackMessages (s0 :: s1 :: s2 :: s3 :: t0 :: t1 :: t2 :: t3 :: c0 :: c1 :: rest)
      = match unPackRecords (c0 + 256 * c1) rest [] with
        | .error e => .error e
        | .ok msgMap => .ok (s0 + 256 * s1 + 65536 * s2 + 16777216 * s3,
            t0 + 256 * t1 + 65536 * t2 + 16777216 * t3, msgMap) := by
  simp only [unPackMessages, unPackUint16, unPackUint32, bind, Except.bind]
  cases unPackRecords (c0 + 256 * c1) rest [] <;> rfl

theorem unPackMessages_ok (m : Bytes) (h : 10 + 6 * u16At m 8 ≤ m.length) :
    unPackMessages m
      = .ok (u32At m 0, u32At m 4, GoMap.ofRecords (wireRecords (u16At m 8) (m.drop 10))) := by
  rcases m with _ | ⟨s0, _ | ⟨s1, _ | ⟨s2, _ | ⟨s3, _ | ⟨t0, _ | ⟨t1, _ | ⟨t2, _ | ⟨t3,
    _ | ⟨c0, _ | ⟨c1, rest⟩⟩⟩⟩⟩⟩⟩⟩⟩⟩
  all_goals simp only [List.length_cons, List.length_nil] at h
  all_goals try omega
  have hc : u16At (s0 :: s1 :: s2 :: s3 :: t0 :: t1 :: t2 :: t3 :: c0 :: c1 :: rest) 8
      = c0 + 256 * c1 := rfl
  rw [hc] at h ⊢
  rw [unPackMessages_header, unPackRecords_ok _ rest [] (by omega)]
  rfl

theorem unPackMessages_truncated (m : Bytes) (h : m.length < 10 + 6 * u16At m 8) :
    ∃ e, unPackMessages m = .error e := by
  by_cases h10 : m.length < 10
  · exact unPackMessages_short m h10
  · rcases m with _ | ⟨s0, _ | ⟨s1, _ | ⟨s2, _ | ⟨s3, _ | ⟨t0, _ | ⟨t1, _ | ⟨t2, _ | ⟨t3,
      _ | ⟨c0, _ | ⟨c1, rest⟩⟩⟩⟩⟩⟩⟩⟩⟩⟩
    all_goals simp only [List.length_cons, List.length_nil] at h10
    all_goals try omega
    have hc : u16At (s0 :: s1 :: s2 :: s3 :: t0 :: t1 :: t2 :: t3 :: c0 :: c1 :: rest) 8
        = c0 + 256 * c1 := rfl
    rw [hc] at h
    simp only [List.length_cons] at h
    obtain ⟨e, he⟩ := unPackRecords_error (c0 + 256 * c1) rest [] (by omega)
    exact ⟨e, by rw [unPackMessages_header, he]⟩

theorem wireRecords_take (c : Nat) :
    ∀ r : Bytes, wireRecords c (r.take (6 * c)) = wireRecords c r := by
  induction c with
  | zero => intro r; simp [wireRecords]
  | succ c ih =>
    intro r
    have h6 : 6 * (c + 1) = 6 * c + 1 + 1 + 1 + 1 + 1 + 1 := by omega
    rcases r with _ | ⟨b0, _ | ⟨b1, _ | ⟨b2, _ | ⟨b3, _ | ⟨b4, _ | ⟨b5, rest⟩⟩⟩⟩⟩⟩
    all_goals simp only [h6, List.take_succ_cons, List.take_nil, wireRecords]
    exact congrArg _ (ih rest)

theorem unPackMessages_take (m : Bytes) (h : 10 + 6 * u16At m 8 ≤ m.length) :
    unPackMessages (m.take (10 + 6 * u16At m 8)) = unPackMessages m := by
  rcases m with _ | ⟨s0, _ | ⟨s1, _ | ⟨s2, _ | ⟨s3, _ | ⟨t0, _ | ⟨t1, _ | ⟨t2, _ | ⟨t3,
    _ | ⟨c0, _ | ⟨c1, rest⟩⟩⟩⟩⟩⟩⟩⟩⟩⟩
  all_goals simp only [List.length_cons, List.length_nil] at h
  all_goals try omega
  have hc : u16At (s0 :: s1 :: s2 :: s3 :: t0 :: t1 :: t2 :: t3 :: c0 :: c1 :: rest) 8
      = c0 + 256 * c1 := rfl
  rw [hc] at h ⊢
  have h10 : 10 + 6 * (c0 + 256 * c1)
      = 6 * (c0 + 256 * c1) + 1 + 1 + 1 + 1 + 1 + 1 + 1 + 1 + 1 + 1 := by omega
  have hl : 6 * (c0 + 256 * c1) ≤ (rest.take (6 * (c0 + 256 * c1))).length := by
    rw [List.length_take]; omega
  rw [h10]
  simp only [List.take_succ_cons]
  rw [unPackMessages_header, unPackMessages_header, unPackRecords_ok _ _ [] hl,
    unPackRecords_ok _ rest [] (by omega), wireRecords_take]

/-- C13: for every byte string `m`, with `c` the little-endian 16-bit count at bytes 8..9,
`unPackMessages m` returns an error if and only if `len m < 10` or `len m < 10 + 6c`.
Otherwise it succeeds with the salt read from bytes 0..3, the ts read from bytes 4..7
(both little-endian) and the map obtained by assigning the `c` records that start at
byte 10; the bytes after the `c`-th record play no part. -/
theorem unPackMessages_fails_exactly_on_truncation (m : Bytes) :
    ((∃ e, unPackMessages m = .error e) ↔
      (m.length < 10 ∨ m.length < 10 + 6 * u16At m 8)) ∧
    (¬ (m.length < 10 ∨ m.length < 10 + 6 * u16At m 8) →
      unPackMessages m
        = .ok (u32At m 0, u32At m 4,
            GoMap.ofRecords (wireRecords (u16At m 8) (m.drop 10))) ∧
      unPackMessages (m.take (10 + 6 * u16At m 8)) = unPackMessages m) := by
  constructor
  · constructor
    · rintro ⟨e, he⟩
      by_contra hn
      have hle : 10 + 6 * u16At m 8 ≤ m.length := by omega
      rw [unPackMessages_ok m hle] at he
      cases he
    · rintro (h | h)
      · exact unPackMessages_short m h
      · exact unPackMessages_truncated m h
  · intro hn
    have hle : 10 + 6 * u16At m 8 ≤ m.length := by omega
    exact ⟨unPackMessages_ok m hle, unPackMessages_take m hle⟩

theorem unPackMessages_fails_exactly_on_truncation_witness :
    ¬ (sampleMessage.length < 10 ∨ sampleMessage.length < 10 + 6 * u16At sampleMessage 8) ∧
    unPackMessages sampleMessage = .ok (1, 2, [(7, 9)]) ∧
    unPackMessages (sampleMessage.take 22) = unPackMessages sampleMessage ∧
    ((∃ e, unPackMessages (sampleMessage.take 21) = .error e) ↔
      ((sampleMessage.take 21).length < 10 ∨
        (sampleMessage.take 21).length < 10 + 6 * u16At (sampleMessage.take 21) 8)) :=
  have h := (unPackMessages_fails_exactly_on_truncation sampleMessage).2 (by decide)
  ⟨by decide, h.1, h.2, (unPackMessages_fails_exactly_on_truncation (sampleMessage.take 21)).1⟩

/-! ## Records in any order, with repeated keys -/

theorem unPackRecords_encodeRecords (rs : List (Nat × Nat)) :
    ∀ (acc : GoMap) (tail : Bytes), (∀ p ∈ rs, p.1 < 65536 ∧ p.2 < 4294967296) →
      unPackRecords rs.length (encodeRecords rs ++ tail) acc
        = .ok (rs.foldl (fun a p => a.set p.1 p.2) acc) := by
  induction rs with
  | nil => intro acc tail _; simp [unPackRecords, encodeRecords]
  | cons p rs ih =>
    intro acc tail h
    have hp := h p (List.mem_cons_self _ _)
    have ih' := ih (acc.set p.1 p.2) tail (fun q hq => h q (List.mem_cons_of_mem _ hq))
    simp only [encodeRecords] at ih'
    simp only [encodeRecords, List.flatMap_cons, List.length_cons, unPackRecords,
      List.append_assoc, unPackUint16_le16, unPackUint32_le32, bind, Except.bind,
      Nat.mod_eq_of_lt hp.1, Nat.mod_eq_of_lt hp.2, ih', List.foldl_cons]

theorem unPackMessages_wireMessage (salt ts : Nat) (rs : List (Nat × Nat))
    (hs : salt < 4294967296) (hts : ts < 4294967296)
    (hrs : ∀ p ∈ rs, p.1 < 65536 ∧ p.2 < 4294967296) (hn : rs.length < 65536) :
    unPackMessages (wireMessage salt ts rs) = .ok (salt, ts, GoMap.ofRecords rs) := by
  have h := unPackRecords_encodeRecords rs [] [] hrs
  rw [List.append_nil] at h
  simp only [unPackMessages, wireMessage, List.append_assoc, unPackUint32_le32,
    unPackUint16_le16, bind, Except.bind, Nat.mod_eq_of_lt hs, Nat.mod_eq_of_lt hts,
    Nat.mod_eq_of_lt hn, h]
  rfl

theorem foldl_set_lookup_of_not_mem (post : List (Nat × Nat)) (k : Nat) :
    ∀ acc : GoMap, k ∉ post.map Prod.fst →
      (post.foldl (fun a p => a.set p.1 p.2) acc).lookup? k = acc.lookup? k := by
  induction post with
  | nil => intro acc _; rfl
  | cons p post ih =>
    intro acc h
    simp only [List.map_cons, List.mem_cons, not_or] at h
    rw [List.foldl_cons, ih _ h.2, GoMap.lookup?_set, if_neg (Ne.symm h.1)]

theorem ofRecords_lookup_last (pre post : List (Nat × Nat)) (k v : Nat)
    (h : k ∉ post.map Prod.fst) :
    (GoMap.ofRecords (pre ++ (k, v) :: post)).lookup? k = some v := by
  rw [GoMap.ofRecords, List.foldl_append, List.foldl_cons, foldl_set_lookup_of_not_mem post k _ h,
    GoMap.lookup?_set, if_pos rfl]

/-- C16: a message block whose records come in any order and may repeat keys is decoded
without error, and for every key the resulting map holds the value of the last record
on the wire that carries this key. -/
theorem unPackMessages_duplicate_keys (salt ts : Nat) (rs : List (Nat × Nat))
    (hs : salt < 4294967296) (hts : ts < 4294967296)
    (hrs : ∀ p ∈ rs, p.1 < 65536 ∧ p.2 < 4294967296) (hn : rs.length < 65536) :
    ∃ msgMap, unPackMessages (wireMessage salt ts rs) = .ok (salt, ts, msgMap) ∧
      ∀ pre post k v, rs = pre ++ (k, v) :: post → k ∉ post.map Prod.fst →
        msgMap.lookup? k = some v ∧ msgMap.get k = v := by
  refine ⟨GoMap.ofRecords rs, unPackMessages_wireMessage salt ts rs hs hts hrs hn, ?_⟩
  intro pre post k v hrs' hk
  have h := ofRecords_lookup_last pre post k v hk
  rw [← hrs'] at h
  exact ⟨h, by simp [GoMap.get, h]⟩

theorem unPackMessages_duplicate_keys_witness :
    (1 : Nat) < 4294967296 ∧ (2 : Nat) < 4294967296 ∧
    (∀ p ∈ [(7, 5), (3, 1), (7, 9), (3, 4), (2, 8)], p.1 < 65536 ∧ p.2 < 4294967296) ∧
    (7 : Nat) ∉ [(3, 4), (2, 8)].map Prod.fst ∧
    ∃ msgMap, unPackMessages (wireMessage 1 2 [(7, 5), (3, 1), (7, 9), (3, 4), (2, 8)])
        = .ok (1, 2, msgMap) ∧
      msgMap.lookup? 7 = some 9 ∧ msgMap.get 7 = 9 := by
  obtain ⟨msgMap, h1, h2⟩ := unPackMessages_duplicate_keys 1 2
    [(7, 5), (3, 1), (7, 9), (3, 4), (2, 8)] (by decide) (by decide) (by decide) (by decide)
  exact ⟨by decide, by decide, by decide, by decide, msgMap, h1,
    h2 [(7, 5), (3, 1)] [(3, 4), (2, 8)] 7 9 rfl (by decide)⟩

/-! ## Parsing any token laid out in the wire format -/

theorem encodeRecords_lt (rs : List (Nat × Nat)) : ∀ b ∈ encodeRecords rs, b < 256 := by
  intro b hb
  simp only [encodeRecords, List.mem_flatMap, List.mem_append] at hb
  obtain ⟨p, _, h | h⟩ := hb
  · exact le16_lt _ b h
  · exact le32_lt _ b h

theorem encodeRecords_length (rs : List (Nat × Nat)) :
    (encodeRecords rs).length = 6 * rs.length := by
  induction rs with
  | nil => rfl
  | cons p rs ih =>
    simp only [encodeRecords, List.flatMap_cons, List.length_append, le16_length, le32_length,
      List.length_cons] at ih ⊢
    omega

theorem wireMessage_length (salt ts : Nat) (rs : List (Nat × Nat)) :
    (wireMessage salt ts rs).length = 10 + 6 * rs.length := by
  simp only [wireMessage, List.length_append, le32_length, le16_length, encodeRecords_length]

theorem wireMessage_lt (salt ts : Nat) (rs : List (Nat × Nat)) :
    ∀ b ∈ wireMessage salt ts rs, b < 256 := by
  intro b hb
  simp only [wireMessage, List.mem_append] at hb
  rcases hb with ((h | h) | h) | h
  · exact le32_lt _ b h
  · exact le32_lt _ b h
  · exact le16_lt _ b h
  · exact encodeRecords_lt _ b h

theorem wireContent_lt (sig : Bytes) (crcChannel crcUser : Nat) (message : Bytes)
    (hsig : ∀ b ∈ sig, b < 256) (hm : ∀ b ∈ message, b < 256) :
    ∀ b ∈ wireContent sig crcChannel crcUser message, b < 256 := by
  intro b hb
  simp only [wireContent, List.mem_append] at hb
  rcases hb with ((((h | h) | h) | h) | h) | h
  · exact le16_lt _ b h
  · exact hsig b h
  · exact le32_lt _ b h
  · exact le32_lt _ b h
  · exact le16_lt _ b h
  · exact hm b h

theorem unPackContent_wireContent (sig : Bytes) (crcChannel crcUser : Nat) (message : Bytes)
    (hsig : sig.length < 65536) (hm : message.length < 65536) :
    unPackContent (wireContent sig crcChannel crcUser message)
      = .ok (sig, crcChannel % 4294967296, crcUser % 4294967296, message) := by
  simp only [unPackContent, wireContent, List.append_assoc, unPackString_le16,
    Nat.mod_eq_of_lt hsig, bind, Except.bind]
  simp only [List.take_left' rfl, List.drop_left' rfl, unPackUint32_le32, unPackString_le16,
    Nat.mod_eq_of_lt hm]
  simp

theorem parse_wireToken (appID content : Bytes) (h32 : appID.length = 32)
    (hb : ∀ b ∈ content, b < 256) :
    NewAccessTokenFromString (wireToken appID content) =
      match unPackContent content with
      | .error e => .error e
      | .ok c =>
        match unPackMessages c.2.2.2 with
        | .error e => .error e
        | .ok r => .ok ⟨appID, [], [], [], r.2.1, r.1, r.2.2, c.1, c.2.1, c.2.2.1, c.2.2.2⟩ := by
  have hlen : (wireToken appID content).length = 35 + (b64Encode content).length := by
    simp [wireToken, dk6version_eq, h32]; omega
  have htake : (wireToken appID content).take 3 = dk6version := by
    simp [wireToken, dk6version_eq]
  have happ : ((wireToken appID content).take 35).drop 3 = appID := by
    simp only [wireToken, dk6version_eq, List.append_assoc, List.cons_append,
      List.nil_append, List.take_succ_cons, List.drop_succ_cons, List.drop_zero]
    exact List.take_left' h32
  have hcont : (wireToken appID content).drop 35 = b64Encode content := by
    simp only [wireToken, dk6version_eq, List.append_assoc, List.cons_append,
      List.nil_append, List.drop_succ_cons]
    exact List.drop_left' h32
  simp only [NewAccessTokenFromString, VersionLength, AppIdLength, hlen, htake, happ, hcont,
    b64Decode_b64Encode _ hb]
  simp only [Nat.reduceAdd, ne_eq, not_true_eq_false, if_false]
  rw [if_neg (by omega), if_neg (by omega)]
  cases h : unPackContent content with
  | error e => rfl
  | ok c =>
    obtain ⟨c1, c2, c3, c4⟩ := c
    simp only
    cases h' : unPackMessages c4 with
    | error e => rfl
    | ok r => rfl

theorem ofRecords_lookup_of_mem {rs : List (Nat × Nat)} (hnd : (rs.map Prod.fst).Nodup)
    {k v : Nat} (hkv : (k, v) ∈ rs) : (GoMap.ofRecords rs).lookup? k = some v := by
  obtain ⟨pre, post, rfl⟩ := List.append_of_mem hkv
  apply ofRecords_lookup_last
  rw [List.map_append, List.map_cons] at hnd
  have h := (List.nodup_append.1 hnd).2.1
  exact (List.nodup_cons.1 h).1

/-- C15: take any token laid out in the wire format: version `006`, a 32-character appID,
a signature and a message block whose lengths fit their 16-bit fields, and records with
distinct 16-bit keys and 32-bit values. It parses successfully, and for every record
`(k, v)` of its message block, whatever the value of `k`, the parsed privilege map maps
`k` to `v`. -/
theorem unknown_privilege_tolerance (appID sig : Bytes) (crcChannel crcUser salt ts : Nat)
    (rs : List (Nat × Nat)) (k v : Nat) (h32 : appID.length = 32)
    (hsig : sig.length < 65536) (hsigb : ∀ b ∈ sig, b < 256)
    (hrs : ∀ p ∈ rs, p.1 < 65536 ∧ p.2 < 4294967296) (hlen : 10 + 6 * rs.length < 65536)
    (hnd : (rs.map Prod.fst).Nodup) (hkv : (k, v) ∈ rs) :
    ∃ parsed,
      NewAccessTokenFromString
          (wireToken appID (wireContent sig crcChannel crcUser (wireMessage salt ts rs)))
        = .ok parsed ∧
      parsed.message.lookup? k = some v ∧ parsed.message.get k = v := by
  have hM : (wireMessage salt ts rs).length < 65536 := by rw [wireMessage_length]; exact hlen
  have hrec := unPackRecords_encodeRecords rs [] [] hrs
  rw [List.append_nil] at hrec
  have hmsg : unPackMessages (wireMessage salt ts rs)
      = .ok (salt % 4294967296, ts % 4294967296, GoMap.ofRecords rs) := by
    simp only [unPackMessages, wireMessage, List.append_assoc, unPackUint32_le32,
      unPackUint16_le16, bind, Except.bind, Nat.mod_eq_of_lt (show rs.length < 65536 by omega),
      hrec]
    rfl
  have hlook := ofRecords_lookup_of_mem hnd hkv
  refine ⟨⟨appID, [], [], [], ts % 4294967296, salt % 4294967296, GoMap.ofRecords rs, sig,
    crcChannel % 4294967296, crcUser % 4294967296, wireMessage salt ts rs⟩, ?_, hlook,
    by simp [GoMap.get, hlook]⟩
  rw [parse_wireToken _ _ h32 (wireContent_lt _ _ _ _ hsigb (wireMessage_lt _ _ _)),
    unPackContent_wireContent _ _ _ _ hsig hM]
  simp only [hmsg]

theorem unknown_privilege_tolerance_witness :
    (List.replicate 32 48).length = 32 ∧
    ((4242, 1700000000) : Nat × Nat) ∈ [(1, 1446455471), (4242, 1700000000), (65535, 7)] ∧
    ∃ parsed,
      NewAccessTokenFromString
          (wireToken (List.replicate 32 48) (wireContent [1, 2, 3] 5 6
            (wireMessage 1 2 [(1, 1446455471), (4242, 1700000000), (65535, 7)])))
        = .ok parsed ∧
      parsed.message.lookup? 4242 = some 1700000000 ∧ parsed.message.get 4242 = 1700000000 :=
  ⟨by decide, by decide,
    unknown_privilege_tolerance (List.replicate 32 48) [1, 2, 3] 5 6 1 2
      [(1, 1446455471), (4242, 1700000000), (65535, 7)] 4242 1700000000
      (by decide) (by decide) (by decide) (by decide) (by decide) (by decide) (by decide)⟩

/-! ## Inputs too short to slice -/

theorem NewAccessTokenFromString_fault_iff (originToken : Bytes) :
    NewAccessTokenFromString originToken = .fault ↔
      (originToken.length < 3 ∨
        (originToken.take 3 = ascii "006" ∧ originToken.length < 35)) := by
  unfold NewAccessTokenFromString
  simp only [VersionLength, AppIdLength, dk6version, Nat.reduceAdd]
  by_cases h3 : originToken.length < 3
  · simp [h3]
  · rw [if_neg h3]
    by_cases hv : originToken.take 3 = ascii "006"
    · rw [if_neg (not_not.2 hv)]
      by_cases h35 : originToken.length < 35
      · simp [h35, hv]
      · rw [if_neg h35]
        simp only [h3, h35, and_false, or_false, iff_false]
        cases b64Decode (originToken.drop 35) with
        | error e => simp
        | ok d =>
          simp only
          cases unPackContent d with
          | error e => simp
          | ok c =>
            obtain ⟨c1, c2, c3, c4⟩ := c
            simp only
            cases unPackMessages c4 with
            | error e => simp
            | ok r => simp
    · rw [if_pos hv]
      simp [h3, hv]

/-- C14 (the code at the failing inputs): `NewAccessTokenFromString` stops with a run-time
fault, returning neither a token nor an error, on the empty string, on a two-character
string, on the bare version tag `006`, and on `006` followed by 31 characters. It
faults exactly when the input has fewer than 3 characters, or starts with `006` and has
fewer than 35; on every other input it returns a token or an error. -/
theorem NewAccessTokenFromString_faults_on_short_input :
    NewAccessTokenFromString [] = .fault ∧
    NewAccessTokenFromString (ascii "00") = .fault ∧
    NewAccessTokenFromString (ascii "006") = .fault ∧
    NewAccessTokenFromString (ascii "006" ++ List.replicate 31 48) = .fault ∧
    ∀ originToken, NewAccessTokenFromString originToken = .fault ↔
      (originToken.length < 3 ∨
        (originToken.take 3 = ascii "006" ∧ originToken.length < 35)) :=
  ⟨by decide, by decide, by decide, by decide, NewAccessTokenFromString_fault_iff⟩

/-! ## The 16-bit length of the message block -/

theorem rangeMap_WF (n : Nat) (hn : n ≤ 65536) :
    GoMap.WF ((List.range n).map (fun k => (k, 0))) := by
  constructor
  · rw [GoMap.keys, List.map_map]
    exact (List.nodup_range n).map (fun a b h => h)
  · intro p hp
    rw [List.mem_map] at hp
    obtain ⟨k, hk, rfl⟩ := hp
    rw [List.mem_range] at hk
    exact ⟨Nat.lt_of_lt_of_le hk hn, Nat.zero_lt_succ _⟩

theorem bigRequest_facts :
    bigRequest.WF ∧ bigRequest.appID.length = 32 ∧ bigRequest.message.length = 10921 := by
  have hmsg : bigRequest.message = (List.range 10921).map (fun k => (k, 0)) := by
    rw [bigRequest, bigMap]
  have hts : bigRequest.ts = 0 := by rw [bigRequest]
  have hsalt : bigRequest.salt = 0 := by rw [bigRequest]
  refine ⟨⟨by rw [hts]; decide, by rw [hsalt]; decide, ?_⟩, ?_, ?_⟩
  · rw [hmsg]; exact rangeMap_WF 10921 (by decide)
  · rw [bigRequest]; exact List.length_replicate _ _
  · rw [hmsg, List.length_map, List.length_range]

theorem fullRequest_facts :
    fullRequest.WF ∧ fullRequest.appID.length = 32 ∧ fullRequest.message.length = 65536 := by
  have hmsg : fullRequest.message = (List.range 65536).map (fun k => (k, 0)) := by
    rw [fullRequest, fullMap]
  have hts : fullRequest.ts = 0 := by rw [fullRequest]
  have hsalt : fullRequest.salt = 0 := by rw [fullRequest]
  refine ⟨⟨by rw [hts]; decide, by rw [hsalt]; decide, ?_⟩, ?_, ?_⟩
  · rw [hmsg]; exact rangeMap_WF 65536 (Nat.le_refl _)
  · rw [fullRequest]; exact List.length_replicate _ _
  · rw [hmsg, List.length_map, List.length_range]

theorem GoMap.WF_length_le {m : GoMap} (hm : m.WF) : m.length ≤ 65536 := by
  have hsub : m.keys ⊆ List.range 65536 := by
    intro k hk
    exact List.mem_range.2 (GoMap.key_lt hm hk)
  have h := (List.subperm_of_subset hm.1 hsub).length_le
  rw [List.length_range, GoMap.keys, List.length_map] at h
  exact h

theorem messageBlock_take (token : AccessToken) (L : Nat) (hL : 10 ≤ L) :
    token.messageBlock.take L
      = le32 token.salt ++ le32 token.ts ++ le16 (token.message.length % 65536)
        ++ (recordBytes token.message token.message.sortedKeys).take (L - 10) := by
  have hA : (le32 token.salt ++ le32 token.ts
      ++ le16 (token.message.length % 65536)).length = 10 := rfl
  have hM : token.messageBlock = (le32 token.salt ++ le32 token.ts
      ++ le16 (token.message.length % 65536))
        ++ recordBytes token.message token.message.sortedKeys := by
    simp only [AccessToken.messageBlock, mapBytes, List.append_assoc]
  rw [hM, List.take_append_eq_append_take, hA, List.take_of_length_le (by rw [hA]; exact hL)]

theorem u16At_header (a b c : Nat) (rest : Bytes) :
    u16At (le32 a ++ le32 b ++ le16 c ++ rest) 8 = c % 65536 := by
  simp only [le32, le16, u16At, List.cons_append, List.nil_append, List.getD_cons_succ,
    List.getD_cons_zero]
  omega

theorem parse_large_fails (token : AccessToken) (h32 : token.appID.length = 32)
    (hlo : 10920 < token.message.length) (hhi : token.message.length < 65536) :
    ∃ e, NewAccessTokenFromString token.tokenString = .error e := by
  have hlen := messageBlock_length token
  have hmod : token.messageBlock.length % 65536 < 65536 := Nat.mod_lt _ (by decide)
  have hle : token.messageBlock.length % 65536 ≤ token.messageBlock.length := Nat.mod_le _ _
  have htl : (token.messageBlock.take (token.messageBlock.length % 65536)).length
      = token.messageBlock.length % 65536 := by
    rw [List.length_take]; omega
  have herr : ∃ e, unPackMessages
      (token.messageBlock.take (token.messageBlock.length % 65536)) = .error e := by
    by_cases h10 : token.messageBlock.length % 65536 < 10
    · exact unPackMessages_short _ (by rw [htl]; exact h10)
    · apply unPackMessages_truncated
      rw [htl, messageBlock_take token _ (by omega), u16At_header, Nat.mod_mod,
        Nat.mod_eq_of_lt hhi]
      omega
  obtain ⟨e, he⟩ := herr
  exact ⟨e, by rw [parse_tokenString token h32, he]⟩

theorem parse_full (token : AccessToken) (hwf : token.WF) (h32 : token.appID.length = 32)
    (hn : token.message.length = 65536) :
    NewAccessTokenFromString token.tokenString
      = .ok (parsedToken token (le32 token.salt ++ le32 token.ts ++ le16 0)
          (token.salt, token.ts, [])) := by
  have hL : token.messageBlock.length % 65536 = 10 := by
    rw [messageBlock_length, hn]
  have hmsg : unPackMessages (le32 token.salt ++ le32 token.ts ++ le16 0)
      = .ok (token.salt, token.ts, []) := by
    have h := unPackMessages_wireMessage token.salt token.ts [] hwf.2.1 hwf.1
      (fun p hp => by cases hp) (by decide)
    simpa [wireMessage, encodeRecords] using h
  rw [parse_tokenString token h32, hL, messageBlock_take token 10 (Nat.le_refl _), hn]
  simp only [Nat.mod_self, Nat.sub_self, List.take_zero, List.append_nil, hmsg]

/-! ## Fields recovered by the parser -/

/-- C12, as stated, fails: the request `fullRequest` is well formed, has a 32-character
appID and its token parses, but the parsed `msgRawContent` has 10 bytes while the message
block that `Build` signed has 393226. -/
theorem msgRawContent_differs_for_full_map :
    fullRequest.WF ∧ fullRequest.appID.length = 32 ∧
    ∃ s parsed, fullRequest.Build = .ok s ∧ NewAccessTokenFromString s = .ok parsed ∧
      parsed.msgRawContent.length = 10 ∧ fullRequest.messageBlock.length = 393226 ∧
      parsed.msgRawContent ≠ fullRequest.messageBlock := by
  obtain ⟨hwf, h32, hn⟩ := fullRequest_facts
  have hlen : fullRequest.messageBlock.length = 393226 := by
    rw [messageBlock_length, hn]
  refine ⟨hwf, h32, _, _, Build_eq _, parse_full _ hwf h32 hn, rfl, hlen, ?_⟩
  intro h
  have h' := congrArg List.length h
  rw [hlen] at h'
  exact absurd h' (by decide)

/-- C12 (amended): for every request with a 32-character appID whose token parses, the
parsed token's appID equals the request's appID, its signature equals the HMAC-SHA256
bytes computed by `Build`, its crcChannelName and crcUid equal the CRC-32 of the request's
channel name and user string, and its msgRawContent equals the first `len M mod 2^16`
bytes of the message block `M` that `Build` signed, which is all of `M` when the request
has at most 10920 privileges. -/
theorem parsed_fields (token : AccessToken) (s : Bytes) (parsed : AccessToken)
    (h32 : token.appID.length = 32) (hb : token.Build = .ok s)
    (hp : NewAccessTokenFromString s = .ok parsed) :
    parsed.appID = token.appID ∧
    parsed.signature = hmacSha256 token.appCertificate
      (token.appID ++ token.channelName ++ token.uidStr ++ token.messageBlock) ∧
    parsed.crcChannelName = crc32 token.channelName ∧
    parsed.crcUid = crc32 token.uidStr ∧
    parsed.msgRawContent = token.messageBlock.take (token.messageBlock.length % 65536) ∧
    (token.message.length ≤ 10920 → parsed.msgRawContent = token.messageBlock) := by
  rw [Build_eq] at hb
  cases hb
  rw [parse_tokenString token h32] at hp
  cases hm : unPackMessages (token.messageBlock.take (token.messageBlock.length % 65536)) with
  | error e => rw [hm] at hp; cases hp
  | ok r =>
    rw [hm] at hp
    cases hp
    refine ⟨rfl, rfl, rfl, rfl, rfl, ?_⟩
    intro hn
    have hlen := messageBlock_length token
    show token.messageBlock.take (token.messageBlock.length % 65536) = token.messageBlock
    rw [Nat.mod_eq_of_lt (by omega), List.take_of_length_le (Nat.le_refl _)]

theorem parsed_fields_witness :
    smallRequest.appID.length = 32 ∧ smallRequest.message.length ≤ 10920 ∧
    ∃ s parsed, smallRequest.Build = .ok s ∧ NewAccessTokenFromString s = .ok parsed ∧
      parsed.appID = smallRequest.appID ∧
      parsed.signature = hmacSha256 smallRequest.appCertificate
        (smallRequest.appID ++ smallRequest.channelName ++ smallRequest.uidStr
          ++ smallRequest.messageBlock) ∧
      parsed.crcChannelName = crc32 smallRequest.channelName ∧
      parsed.crcUid = crc32 smallRequest.uidStr ∧
      parsed.msgRawContent = smallRequest.messageBlock :=
  have hb := Build_eq smallRequest
  have hp := parse_Build smallRequest (by decide) (by decide) (by decide)
  have h := parsed_fields smallRequest _ _ (by decide) hb hp
  ⟨by decide, by decide, _, _, hb, hp, h.1, h.2.1, h.2.2.1, h.2.2.2.1, h.2.2.2.2.2 (by decide)⟩

/-- C19: `packString` writes the length of the string modulo `2^16` and then all of its
bytes, so the message length field of a request with `n` privileges is
`(10 + 6n) mod 65536`. For a well-formed request with a 32-character appID, parsing the
built token returns the original privilege map if and only if `n ≤ 10920`; for `n = 10921`
the parse returns an error, and for `n = 65536` it succeeds with an empty privilege
map. -/
theorem length_limit_of_round_trip (token : AccessToken) (hwf : token.WF)
    (h32 : token.appID.length = 32) :
    (∀ w s : Bytes, packString w s = .ok (w ++ le16 (s.length % 65536) ++ s)) ∧
    (∃ front : Bytes, token.Build = .ok (ascii "006" ++ token.appID ++ b64Encode
        (front ++ le16 ((10 + 6 * token.message.length) % 65536) ++ token.messageBlock)) ∧
      front.length = 42) ∧
    ((∃ parsed, NewAccessTokenFromString token.tokenString = .ok parsed ∧
        ∀ k, parsed.message.lookup? k = token.message.lookup? k) ↔
      token.message.length ≤ 10920) ∧
    (token.message.length = 10921 →
      ∃ e, NewAccessTokenFromString token.tokenString = .error e) ∧
    (token.message.length = 65536 →
      ∃ parsed, NewAccessTokenFromString token.tokenString = .ok parsed ∧
        parsed.message = []) := by
  refine ⟨packString_eq, ?_, ?_, ?_, ?_⟩
  · refine ⟨le16 (token.signatureBytes.length % 65536) ++ token.signatureBytes
      ++ le32 (crc32 token.channelName) ++ le32 (crc32 token.uidStr), ?_, ?_⟩
    · rw [Build_eq, AccessToken.tokenString, AccessToken.contentBlock, messageBlock_length]
      rfl
    · simp only [List.length_append, le16_length, le32_length, hmacSha256_length,
        AccessToken.signatureBytes]
  · constructor
    · rintro ⟨parsed, hp, hl⟩
      by_contra hn
      have hle := GoMap.WF_length_le hwf.2.2
      by_cases hfull : token.message.length = 65536
      · rw [parse_full token hwf h32 hfull] at hp
        cases hp
        cases hmsg : token.message with
        | nil => rw [hmsg] at hfull; cases hfull
        | cons p rest =>
          have h1 := hl p.1
          rw [hmsg] at h1
          simp [parsedToken, GoMap.lookup?] at h1
      · obtain ⟨e, he⟩ := parse_large_fails token h32 (by omega) (by omega)
        rw [he] at hp
        cases hp
    · intro hn
      exact ⟨_, parse_Build token hwf h32 hn, fun k => GoMap.lookup?_canonical hwf.2.2.1 k⟩
  · intro hn
    exact parse_large_fails token h32 (by omega) (by omega)
  · intro hn
    exact ⟨_, parse_full token hwf h32 hn, rfl⟩

theorem length_limit_of_round_trip_witness :
    (smallRequest.WF ∧ smallRequest.appID.length = 32 ∧ smallRequest.message.length ≤ 10920 ∧
      ∃ parsed, NewAccessTokenFromString smallRequest.tokenString = .ok parsed ∧
        ∀ k, parsed.message.lookup? k = smallRequest.message.lookup? k) ∧
    (bigRequest.WF ∧ bigRequest.appID.length = 32 ∧ bigRequest.message.length = 10921 ∧
      ∃ e, NewAccessTokenFromString bigRequest.tokenString = .error e) ∧
    (fullRequest.WF ∧ fullRequest.appID.length = 32 ∧ fullRequest.message.length = 65536 ∧
      ∃ parsed, NewAccessTokenFromString fullRequest.tokenString = .ok parsed ∧
        parsed.message = []) :=
  ⟨⟨by decide, by decide, by decide,
      (length_limit_of_round_trip smallRequest (by decide) (by decide)).2.2.1.2 (by decide)⟩,
    ⟨bigRequest_facts.1, bigRequest_facts.2.1, bigRequest_facts.2.2,
      (length_limit_of_round_trip bigRequest bigRequest_facts.1 bigRequest_facts.2.1).2.2.2.1
        bigRequest_facts.2.2⟩,
    ⟨fullRequest_facts.1, fullRequest_facts.2.1, fullRequest_facts.2.2,
      (length_limit_of_round_trip fullRequest fullRequest_facts.1 fullRequest_facts.2.1).2.2.2.2
        fullRequest_facts.2.2⟩⟩

end Agora
